import Mathlib

/-!
Verification of the conversation-persistence core of the se-email-agent backend.

The development shallowly embeds the Python source:
* `backend/database/repository.py` — `_clean_content`, `_extract_sources`,
  message serialization inside `save_chat_history`, and its error handling;
* `backend/database/queries.py` — the Cypher statements
  `MERGE_CONVERSATION_TURN`, `FETCH_UNEMBEDDED_MESSAGES`,
  `FETCH_UNPROCESSED_SOURCES`, `WRITE_CHUNKS`, `WRITE_VECTOR_BATCH`,
  `VECTOR_LOOKUP`, `LINK_SOURCES_FROM_VECTOR_LOOKUP`, interpreted over an
  explicit graph value;
* `backend/memory.py` — the legacy `persist_chat` ingestion variant
  (`generate_message_id`, `clean_content`, `extract_sources`, and its merge
  query);
* `backend/services/embedder.py` — `process_pending_nodes` and
  `_chunk_and_store_source`.

External collaborators (the JSON parser, the MD5 hex digest, the embedding
provider and the text splitter) are pure stdlib/provider functions outside the
repository; they enter as explicit function parameters, so every theorem holds
for the real collaborator as a special case.  Graph writes issued through the
Neo4j driver run one statement per `execute_query` call, each statement an
atomic transaction: a failing statement leaves the graph unchanged — that store
primitive is the `Except`-rollback convention used below.
-/

/-! ## Python values

Heterogeneous payloads (`msg.content`, parsed JSON) are modelled by a mutual
inductive mirroring the Python value universe the source code inspects:
strings, numbers, booleans, `None`, lists and string-keyed dicts. -/

mutual
inductive PyVal where
  | str (s : String)
  | num (n : Int)
  | bool (b : Bool)
  | none
  | list (xs : PyList)
  | dict (kvs : PyDict)
  deriving DecidableEq
inductive PyList where
  | nil
  | cons (hd : PyVal) (tl : PyList)
  deriving DecidableEq
inductive PyDict where
  | nil
  | cons (key : String) (val : PyVal) (tl : PyDict)
  deriving DecidableEq
end

/-- Build a `PyList` from a Lean list (literal convenience only). -/
def pyList : List PyVal → PyList
  | [] => .nil
  | x :: xs => .cons x (pyList xs)

/-- The elements of a `PyList` as a Lean list. -/
def PyList.toList : PyList → List PyVal
  | .nil => []
  | .cons x tl => x :: tl.toList

/-- Python `d.get(k)` / `k in d` on a dict: first (only) binding of a key. -/
def dictFind : PyDict → String → Option PyVal
  | .nil, _ => Option.none
  | .cons k v tl, key => if k == key then some v else dictFind tl key

/-- A single-quote character, used by the Python `repr` rendering. -/
def pySq : String := String.singleton (Char.ofNat 39)

/-! Python `str()` / `repr()` of a value.  Only the string branch
(`str(s) = s`) and the scalar branches are relied upon by any theorem; the
container renderings approximate CPython's formatting (element order and
separators match; escaping inside string elements is not modelled). -/

mutual
def pyReprV : PyVal → String
  | .str s => pySq ++ s ++ pySq
  | .num n => toString n
  | .bool b => if b then "True" else "False"
  | .none => "None"
  | .list xs => "[" ++ pyReprL xs ++ "]"
  | .dict kvs => "\x7b" ++ pyReprD kvs ++ "\x7d"
def pyReprL : PyList → String
  | .nil => ""
  | .cons x .nil => pyReprV x
  | .cons x tl => pyReprV x ++ ", " ++ pyReprL tl
def pyReprD : PyDict → String
  | .nil => ""
  | .cons k v .nil => pySq ++ k ++ pySq ++ ": " ++ pyReprV v
  | .cons k v tl => pySq ++ k ++ pySq ++ ": " ++ pyReprV v ++ ", " ++ pyReprD tl
end

/-- Python `str()`: identity on strings, `repr`-style otherwise. -/
def pyStrV : PyVal → String
  | .str s => s
  | v => pyReprV v

/-! `json.dumps` with CPython's default separators (escaping inside strings is
not modelled; no theorem depends on the rendering). -/

mutual
def pyJsonV : PyVal → String
  | .str s => "\"" ++ s ++ "\""
  | .num n => toString n
  | .bool b => if b then "true" else "false"
  | .none => "null"
  | .list xs => "[" ++ pyJsonL xs ++ "]"
  | .dict kvs => "\x7b" ++ pyJsonD kvs ++ "\x7d"
def pyJsonL : PyList → String
  | .nil => ""
  | .cons x .nil => pyJsonV x
  | .cons x tl => pyJsonV x ++ ", " ++ pyJsonL tl
def pyJsonD : PyDict → String
  | .nil => ""
  | .cons k v .nil => "\"" ++ k ++ "\"" ++ ": " ++ pyJsonV v
  | .cons k v tl => "\"" ++ k ++ "\"" ++ ": " ++ pyJsonV v ++ ", " ++ pyJsonD tl
end

/-- Python truthiness (`if not content`). -/
def pyFalsy : PyVal → Bool
  | .str s => s == ""
  | .num n => n == 0
  | .bool b => !b
  | .none => true
  | .list .nil => true
  | .list _ => false
  | .dict .nil => true
  | .dict _ => false

/-- Python `s[:n]`: the first `n` characters. -/
def pyTake (s : String) (n : Nat) : String := String.mk (s.data.take n)

/-- The whitespace characters `str.strip()` removes. -/
def pyIsSpace (c : Char) : Bool :=
  c == ' ' || c == '\t' || c == '\n' || c == '\r' || c == '\x0b' || c == '\x0c'

/-- Python `s.strip()`: drop whitespace from both ends. -/
def pyStrip (s : String) : String :=
  String.mk (((s.data.dropWhile pyIsSpace).reverse.dropWhile pyIsSpace).reverse)

/-- The list branch of `_clean_content` / `clean_content`: concatenate string
items and the `str()` of dict items' `"text"` field, ignoring the rest. -/
def cleanListParts : PyList → String
  | .nil => ""
  | .cons item tl =>
    (match item with
     | .str s => s
     | .dict kvs =>
       match dictFind kvs "text" with
       | some v => pyStrV v
       | Option.none => ""
     | _ => "") ++ cleanListParts tl

/-- `_clean_content` (repository.py) = `clean_content` (memory.py): sanitize a
heterogeneous payload into a plain string. -/
def clean_content (v : PyVal) : String :=
  if pyFalsy v then ""
  else
    match v with
    | .str s => s
    | .list xs => cleanListParts xs
    | .dict kvs =>
      match dictFind kvs "text" with
      | some t => pyStrV t
      | Option.none => pyJsonV (.dict kvs)
    | other => pyStrV other

/-! ## Source extraction from tool payloads -/

/-- One extracted source record (`{url, title, content}`).  `url` and `title`
keep the raw payload values; `content` has been cleaned (and, in the
`memory.py` variant, truncated). -/
structure SrcEntry where
  url : PyVal
  title : PyVal
  content : String
  deriving DecidableEq

/-- One item of the comprehension in `_extract_sources` (repository.py):
a dict containing a `"url"` key is kept, everything else is dropped. -/
def extractItem (item : PyVal) : Option SrcEntry :=
  match item with
  | .dict kvs =>
    match dictFind kvs "url" with
    | some u =>
      some { url := u,
             title := (dictFind kvs "title").getD (.str "No Title"),
             content := clean_content ((dictFind kvs "content").getD (.str "")) }
    | Option.none => Option.none
  | _ => Option.none

/-- `_extract_sources` (repository.py).  `jparse` stands for `json.loads`
(`Option.none` = `JSONDecodeError`).  Note the absence of any truncation of
`content`. -/
def extractSources (jparse : String → Option PyVal) (content : PyVal) : List SrcEntry :=
  match (match content with
         | .str s => jparse s
         | v => some v) with
  | Option.none => []
  | some d =>
    match (match d with
           | .dict kvs => PyVal.list (.cons (.dict kvs) .nil)
           | x => x) with
    | .list items => items.toList.filterMap extractItem
    | _ => []

/-- One item of the loop in `extract_sources` (memory.py): as `extractItem`
but with the content truncated to 500 characters. -/
def extractItemM (item : PyVal) : Option SrcEntry :=
  match item with
  | .dict kvs =>
    match dictFind kvs "url" with
    | some u =>
      some { url := u,
             title := (dictFind kvs "title").getD (.str "No Title"),
             content := pyTake (clean_content ((dictFind kvs "content").getD (.str ""))) 500 }
    | Option.none => Option.none
  | _ => Option.none

/-- `extract_sources` (memory.py).  A raw dict payload is NOT normalised to a
one-element list here (`data` stays `[]` unless the payload is a string that
parses, or a list); a parsed non-list, non-dict JSON value makes the `for`
loop raise, which the enclosing `except` turns into `[]`. -/
def extract_sources_m (jparse : String → Option PyVal) (content : PyVal) : List SrcEntry :=
  match (match content with
         | .str s => jparse s
         | .list xs => some (.list xs)
         | _ => some (.list .nil)) with
  | Option.none => []
  | some d =>
    match (match d with
           | .dict kvs => PyVal.list (.cons (.dict kvs) .nil)
           | x => x) with
    | .list items => items.toList.filterMap extractItemM
    | _ => []

/-! ## Message serialization -/

/-- The concrete `langchain` message class of a raw turn. -/
inductive RawRole where
  | human | ai | system | tool | other
  deriving DecidableEq

/-- A raw `BaseMessage`: its class, its (optional) external `msg.id`, and its
heterogeneous `msg.content`. -/
structure RawMsg where
  rrole : RawRole
  id : Option String
  content : PyVal
  deriving DecidableEq

/-- A serialized message as built by `save_chat_history` (repository.py):
the dict handed to `MERGE_CONVERSATION_TURN` as one element of `$messages`. -/
structure SMsg where
  id : Option String
  index : Nat
  role : String
  content : Option String
  sources : Option (List SrcEntry)
  deriving DecidableEq

/-- The role-mapping `if/elif` chain of `save_chat_history`: `none` encodes
the `continue` taken for `SystemMessage`. -/
def roleOf : RawRole → Option String
  | .human => some "user"
  | .ai => some "assistant"
  | .tool => some "tool"
  | .system => Option.none
  | .other => some "unknown"

/-- The serialization loop of `save_chat_history` (repository.py, steps 1-3):
maps roles, drops system messages, cleans content, drops empty turns, keeps
`msg.id` as the node id, nulls content for non-user/assistant roles, and
extracts sources for tool turns. -/
def serializeLoop (jparse : String → Option PyVal) : List RawMsg → Nat → List SMsg
  | [], _ => []
  | m :: rest, idx =>
    match roleOf m.rrole with
    | Option.none => serializeLoop jparse rest idx
    | some role =>
      let content := clean_content m.content
      if pyStrip content == "" then serializeLoop jparse rest idx
      else
        { id := m.id, index := idx, role := role,
          content := if role == "user" || role == "assistant" then some content else Option.none,
          sources := if role == "tool" then some (extractSources jparse m.content) else Option.none }
          :: serializeLoop jparse rest (idx + 1)

/-- `serialized_msgs` as computed by `save_chat_history`. -/
def serializeMessages (jparse : String → Option PyVal) (msgs : List RawMsg) : List SMsg :=
  serializeLoop jparse msgs 0

/-- `generate_message_id` (memory.py) = `_generate_id` (repository.py):
`md5(f"{thread_id}-{index}-{role}-{content[:50]}").hexdigest()`.  `md5hex`
stands for the MD5 hex digest (stdlib `hashlib`); every theorem quantifies
over it. -/
def generate_message_id (md5hex : String → String) (thread_id : String) (index : Nat)
    (role content : String) : String :=
  md5hex (thread_id ++ "-" ++ toString index ++ "-" ++ role ++ "-" ++ pyTake content 50)

/-- A serialized message as built by `persist_chat` (memory.py). -/
structure PMsg where
  id : String
  index : Nat
  role : String
  content : String
  sources : List SrcEntry
  deriving DecidableEq

/-- The role mapping of `persist_chat` (memory.py): system messages keep
role `system`. -/
def roleOfP : RawRole → String
  | .human => "user"
  | .ai => "assistant"
  | .system => "system"
  | .tool => "tool"
  | .other => "unknown"

/-- The serialization loop of `persist_chat` (memory.py): system messages are
kept with role `system`, the id is always the deterministic hash, content is
always stored. -/
def serializeLoopP (md5hex : String → String) (jparse : String → Option PyVal)
    (thread_id : String) : List RawMsg → Nat → List PMsg
  | [], _ => []
  | m :: rest, idx =>
    let role : String := roleOfP m.rrole
    let content := clean_content m.content
    if content == "" || pyStrip content == "" then serializeLoopP md5hex jparse thread_id rest idx
    else
      { id := generate_message_id md5hex thread_id idx role content,
        index := idx, role := role, content := content,
        sources := if m.rrole == RawRole.tool then extract_sources_m jparse m.content else [] }
        :: serializeLoopP md5hex jparse thread_id rest (idx + 1)

/-- `serialized_messages` as computed by `persist_chat`. -/
def serializeMessagesP (md5hex : String → String) (jparse : String → Option PyVal)
    (thread_id : String) (msgs : List RawMsg) : List PMsg :=
  serializeLoopP md5hex jparse thread_id msgs 0

/-! ## The graph store

Nodes are identified by `(label, key)` where the key is the node's
constrained attribute (`User.email`, `Thread.id`, `Message.id`, `ToolCall.id`,
`Source.url`, `Chunk.id`) — exactly the uniqueness keys of `NEO4J_SCHEMA`
(schema.py).  `MERGE` on a key pattern matches an existing node (first write
wins: `ON CREATE SET` does not fire) or appends a fresh one; merging with a
`null` or non-scalar key raises, which aborts — and, the statement being one
transaction, rolls back — the whole statement.  Timestamp properties
(`created_at`, `crawled_at`) are not modelled; no claim mentions them. -/

inductive NKind where
  | user | thread | message | toolCall | source | chunk
  deriving DecidableEq

abbrev Ref := NKind × String

structure Node where
  kind : NKind
  key : String
  role : Option String := Option.none
  content : Option String := Option.none
  index : Option Nat := Option.none
  title : Option PyVal := Option.none
  text : Option String := Option.none
  embedding : Option (List Int) := Option.none
  embeddedAt : Bool := false
  deriving DecidableEq

inductive EType where
  | participated | first | next | triggered | retrieved | sourced | hasMessage
  deriving DecidableEq

structure Edge where
  typ : EType
  src : Ref
  dst : Ref
  deriving DecidableEq

structure Graph where
  nodes : List Node
  edges : List Edge
  deriving DecidableEq

def graphEmpty : Graph := ⟨[], []⟩

def Node.ref (n : Node) : Ref := (n.kind, n.key)

def hasNode (g : Graph) (r : Ref) : Bool :=
  g.nodes.any (fun n => n.kind == r.1 && n.key == r.2)

def findNode (g : Graph) (r : Ref) : Option Node :=
  g.nodes.find? (fun n => n.kind == r.1 && n.key == r.2)

/-- `MERGE (n:Label {key: k}) ON CREATE SET ...`: match by `(label, key)`,
else create with the `ON CREATE` properties. -/
def mergeNode (g : Graph) (n : Node) : Graph :=
  if hasNode g (n.kind, n.key) then g else { g with nodes := g.nodes ++ [n] }

/-- `MERGE (a)-[:T]->(b)` between two bound nodes. -/
def mergeEdge (g : Graph) (e : Edge) : Graph :=
  if g.edges.contains e then g else { g with edges := g.edges ++ [e] }

/-- The store key a Cypher parameter value merges under.  `null`, lists and
maps are invalid `MERGE` keys and abort the statement; non-string scalars are
tagged to keep the key space of distinct scalars disjoint. -/
def mergeKey : PyVal → Except String String
  | .str s => .ok s
  | .num n => .ok ("#num:" ++ toString n)
  | .bool b => .ok ("#bool:" ++ toString b)
  | _ => .error "cannot merge using null or non-scalar property value"

/-- The key for a serialized message id (`null` id aborts the statement). -/
def idKey : Option String → Except String String
  | some s => .ok s
  | Option.none => .error "cannot merge using null property value"

/-- `(r)-[:FIRST]->()` exists. -/
def hasFirstOut (g : Graph) (r : Ref) : Bool :=
  g.edges.any (fun e => e.typ == .first && e.src == r)

/-! ### Chain-tail discovery

`MATCH threadPath = (t)-[:FIRST]->()-[:NEXT]->*(prev) ... ORDER BY pathLength
DESC LIMIT 1` enumerates trails (Cypher forbids repeating a relationship in a
variable-length pattern; nodes may repeat) and keeps a longest one.  Neo4j
breaks length ties arbitrarily; the model fixes the first candidate in
enumeration order.  Fuel is the edge count, an upper bound on trail length. -/

def trailEnds (g : Graph) : List Edge → Ref → Nat → List (Nat × Ref)
  | _, cur, 0 => [(0, cur)]
  | used, cur, fuel + 1 =>
    match g.edges.filter (fun e => e.typ == .next && e.src == cur && !(used.contains e)) with
    | [] => [(0, cur)]
    | outs =>
      (outs.map (fun e =>
        (trailEnds g (e :: used) e.dst fuel).map (fun p => (p.1 + 1, p.2)))).flatten

def pickLongest (cands : List (Nat × Ref)) : Option (Nat × Ref) :=
  cands.foldl (fun acc p =>
    match acc with
    | Option.none => some p
    | some q => if p.1 > q.1 then some p else some q) Option.none

/-- The end node of a longest `FIRST (NEXT)*` trail out of thread `tid`, or
`none` when the thread has no `FIRST` edge (the `MATCH` then produces no row
and the chain append is skipped). -/
def chainTail (g : Graph) (tid : String) : Option Ref :=
  let starts := g.edges.filter (fun e => e.typ == .first && e.src == (NKind.thread, tid))
  let cands := (starts.map (fun e =>
    (trailEnds g [] e.dst (g.edges.length + 1)).map (fun p => (p.1 + 1, p.2)))).flatten
  (pickLongest cands).map (·.2)

/-! ### MERGE_CONVERSATION_TURN (queries.py) -/

/-- The `FOREACH (source IN msg_1.sources | MERGE (s:Source {url: ...}) ...
MERGE (m)-[:RETRIEVED]->(s))` loop. -/
def mergeSources (owner : Ref) : Graph → List SrcEntry → Except String Graph
  | g, [] => .ok g
  | g, s :: rest =>
    match mergeKey s.url with
    | .error e => .error e
    | .ok u =>
      let g := mergeNode g { kind := .source, key := u, title := some s.title, text := some s.content }
      let g := mergeEdge g ⟨.retrieved, owner, (NKind.source, u)⟩
      mergeSources owner g rest

/-- `OPTIONAL MATCH (tc)-[:RETRIEVED]->(src:Source)`: all Source targets of
`RETRIEVED` edges out of `tcRef`, in edge order. -/
def retrievedSourcesOf (g : Graph) (tcRef : Ref) : List Ref :=
  g.edges.filterMap (fun e =>
    if e.typ == .retrieved && e.src == tcRef && e.dst.1 == NKind.source
    then some e.dst else Option.none)

def addSourcedEdges (mRef : Ref) : Graph → List Ref → Graph
  | g, [] => g
  | g, r :: rest => addSourcedEdges mRef (mergeEdge g ⟨.sourced, mRef, r⟩) rest

/-- The `ON CREATE SET` property bundle of a merged message/toolcall node
(`role`, `content`, `index`; `created_at` not modelled). -/
def msgNodeOf (k : NKind) (mid : String) (m : SMsg) : Node :=
  { kind := k, key := mid, role := some m.role, content := m.content,
    index := some m.index }

/-- The first `CALL` block: when the thread has no `FIRST` edge yet, merge
`$messages[0]` as a `:Message` (whatever its role) and attach the `FIRST`
edge.  On an empty batch `$messages[0]` is `null`, so the `MERGE` aborts. -/
def processFirstBlock (tid : String) (msgs : List SMsg) (g : Graph) : Except String Graph :=
  if hasFirstOut g (NKind.thread, tid) then .ok g
  else
    match msgs with
    | [] => .error "cannot merge using null property value"
    | m :: _ =>
      match idKey m.id with
      | .error e => .error e
      | .ok mid =>
        .ok (mergeEdge (mergeNode g (msgNodeOf .message mid m))
          ⟨.first, (NKind.thread, tid), (NKind.message, mid)⟩)

/-- The `OPTIONAL MATCH (tc:ToolCall {id: msg_0.id}) ... WHEN tc IS NOT null`
block: merge `TRIGGERED` and a `SOURCED` edge per `RETRIEVED` source of the
tool call.  A `null` `msg_0.id` matches nothing. -/
def pairToolLink (g : Graph) (mRef : Ref) (m0 : SMsg) : Graph :=
  match m0.id with
  | Option.none => g
  | some pid =>
    if hasNode g (NKind.toolCall, pid) then
      let g := mergeEdge g ⟨.triggered, mRef, (NKind.toolCall, pid)⟩
      addSourcedEdges mRef g (retrievedSourcesOf g (NKind.toolCall, pid))
    else g

/-- The chain append: `MERGE (prev)-[:NEXT]->(m)` onto the longest-path tail;
no `FIRST` edge means no matching row, so no append. -/
def pairChainAppend (tid : String) (g : Graph) (mRef : Ref) : Graph :=
  match chainTail g tid with
  | Option.none => g
  | some prev => mergeEdge g ⟨.next, prev, mRef⟩

/-- One row of the pairwise `UNWIND`: `msg_1` is merged (as `:ToolCall` for a
tool turn, else as `:Message` followed by the `TRIGGERED`/`SOURCED` linkage
against `msg_0`'s ToolCall and the chain-tail append).  `msg_0` itself is
never merged here. -/
def processPair (tid : String) (g : Graph) (m0 m1 : SMsg) : Except String Graph :=
  if m1.role == "tool" then
    match idKey m1.id with
    | .error e => .error e
    | .ok mid =>
      mergeSources (NKind.toolCall, mid) (mergeNode g (msgNodeOf .toolCall mid m1))
        (m1.sources.getD [])
  else
    match idKey m1.id with
    | .error e => .error e
    | .ok mid =>
      .ok (pairChainAppend tid
        (pairToolLink (mergeNode g (msgNodeOf .message mid m1)) (NKind.message, mid) m0)
        (NKind.message, mid))

def pairsOf (msgs : List SMsg) : List (SMsg × SMsg) := msgs.zip msgs.tail

def processPairs (tid : String) : Graph → List (SMsg × SMsg) → Except String Graph
  | g, [] => .ok g
  | g, p :: ps =>
    match processPair tid g p.1 p.2 with
    | .error e => .error e
    | .ok g' => processPairs tid g' ps

/-- `MERGE (u:User {email}) MERGE (t:Thread {id}) MERGE
(u)-[:PARTICIPATED_IN]->(t)`, shared by both ingestion variants. -/
def mergeUserThread (uid tid : String) (g : Graph) : Graph :=
  mergeEdge (mergeNode (mergeNode g { kind := .user, key := uid })
      { kind := .thread, key := tid })
    ⟨.participated, (NKind.user, uid), (NKind.thread, tid)⟩

/-- `MERGE_CONVERSATION_TURN` (queries.py): user/thread upsert, participation
edge, first-message block, then the pairwise pass over adjacent batch
elements.  A single Cypher statement, hence a single atomic transaction. -/
def mergeConversationTurn (uid tid : String) (msgs : List SMsg) (g : Graph) :
    Except String Graph :=
  match processFirstBlock tid msgs (mergeUserThread uid tid g) with
  | .error e => .error e
  | .ok g => processPairs tid g (pairsOf msgs)

/-! ### The persist_chat merge query (memory.py) -/

/-- One `UNWIND` row of the `persist_chat` query: merge the message, attach
`HAS_MESSAGE`, merge its sources with `RETRIEVED` edges. -/
def persistMsgStep (tid : String) (g : Graph) (m : PMsg) : Except String Graph :=
  let g := mergeNode g
    { kind := .message, key := m.id, role := some m.role, content := some m.content,
      index := some m.index }
  let g := mergeEdge g ⟨.hasMessage, (NKind.thread, tid), (NKind.message, m.id)⟩
  mergeSources (NKind.message, m.id) g m.sources

def persistMsgs (tid : String) : Graph → List PMsg → Except String Graph
  | g, [] => .ok g
  | g, m :: rest =>
    match persistMsgStep tid g m with
    | .error e => .error e
    | .ok g' => persistMsgs tid g' rest

/-- The first query of `persist_chat` (memory.py): user/thread upsert and the
message `UNWIND`.  The chain-linking query is issued separately. -/
def persistChatQuery (uid tid : String) (msgs : List PMsg) (g : Graph) :
    Except String Graph :=
  persistMsgs tid (mergeUserThread uid tid g) msgs

/-! ### LINK_SOURCES_FROM_VECTOR_LOOKUP (queries.py) -/

def linkTargets (g : Graph) (sid : String) : List Ref :=
  g.nodes.filterMap (fun n =>
    if (n.kind == NKind.chunk || n.kind == NKind.message) && n.key == sid
    then some n.ref else Option.none)

def linkSourcesFold (mRef : Ref) : Graph → List String → Graph
  | g, [] => g
  | g, sid :: rest =>
    linkSourcesFold mRef (addSourcedEdges mRef g (linkTargets g sid)) rest

/-- `LINK_SOURCES_FROM_VECTOR_LOOKUP`: match the message (no row, hence a
no-op, when absent), then for each id merge a `SOURCED` edge to every
`Chunk|Message` node with that id. -/
def linkSourcesQuery (msgId : String) (sourceIds : List String) (g : Graph) : Graph :=
  if hasNode g (NKind.message, msgId) then
    linkSourcesFold (NKind.message, msgId) g sourceIds
  else g

/-! ## save_chat_history (repository.py)

The function serializes, then inside `try:` issues `MERGE_CONVERSATION_TURN`
and, when `context_ids` is non-empty and the batch has an assistant message,
`LINK_SOURCES_FROM_VECTOR_LOOKUP` — two separate statements.  `except
Exception` catches everything, logs `"DB Save Failed"`, and the function falls
through to its implicit `return None`.  `fails i = true` models the driver's
retry policy exhausting on statement `i` (a permanent store failure); a failed
statement rolls back, leaving the graph as it was before that statement. -/

structure SaveOutcome where
  graph : Graph
  errorLog : List String
  raised : Bool
  retval : PyVal
  deriving DecidableEq

/-- The link-back phase of `save_chat_history`: applies only when
`context_ids` is truthy and the batch has an assistant message; its statement
may itself fail permanently (logged, swallowed). -/
def saveLink (contextIds : List String) (fails : Nat → Bool) (msgs : List SMsg)
    (g1 : Graph) : SaveOutcome :=
  if contextIds.isEmpty then
    { graph := g1, errorLog := [], raised := false, retval := .none }
  else
    match msgs.reverse.find? (fun m => m.role == "assistant") with
    | Option.none =>
      { graph := g1, errorLog := [], raised := false, retval := .none }
    | some lastAi =>
      if fails 1 then
        { graph := g1, errorLog := ["DB Save Failed: transient retries exhausted"],
          raised := false, retval := .none }
      else
        match lastAi.id with
        | Option.none =>
          { graph := g1, errorLog := [], raised := false, retval := .none }
        | some mid =>
          { graph := linkSourcesQuery mid contextIds g1, errorLog := [],
            raised := false, retval := .none }

/-- The write phase of `save_chat_history`, after serialization: statement 0
is `MERGE_CONVERSATION_TURN`; statement 1 is the separate link-back. -/
def saveWrites (uid tid : String) (msgs : List SMsg) (contextIds : List String)
    (fails : Nat → Bool) (g : Graph) : SaveOutcome :=
  if fails 0 then
    { graph := g, errorLog := ["DB Save Failed: transient retries exhausted"],
      raised := false, retval := .none }
  else
    match mergeConversationTurn uid tid msgs g with
    | .error e =>
      { graph := g, errorLog := ["DB Save Failed: " ++ e], raised := false, retval := .none }
    | .ok g1 => saveLink contextIds fails msgs g1

def save_chat_history (jparse : String → Option PyVal) (uid tid : String)
    (messages : List RawMsg) (contextIds : List String) (fails : Nat → Bool)
    (g : Graph) : SaveOutcome :=
  saveWrites uid tid (serializeMessages jparse messages) contextIds fails g

/-! ## The maintenance job (embedder.py)

`emb` models the embedding provider (`aembed_documents`, applied pointwise),
`split` the `RecursiveCharacterTextSplitter`.  `WRITE_VECTOR_BATCH` is issued
in batches of 50 rows; each row does `MATCH (n:Label {id}) SET n.embedded_at
... setNodeVectorProperty(n, "embedding", vector)` — the concatenation of the
batches is the row-by-row fold below. -/

def setVector (kind : NKind) (id : String) (vec : List Int) (g : Graph) : Graph :=
  { g with nodes := g.nodes.map (fun n =>
      if n.kind == kind && n.key == id
      then { n with embedding := some vec, embeddedAt := true } else n) }

def writeVectorBatch (kind : NKind) : Graph → List (String × List Int) → Graph
  | g, [] => g
  | g, (id, v) :: rest => writeVectorBatch kind (setVector kind id v g) rest

/-- `FETCH_UNEMBEDDED_MESSAGES`: `(m:Message) WHERE m.embedding IS null AND
m.content IS NOT null`, returning `(id, content)`. -/
def fetchUnembeddedMessages (g : Graph) : List (String × String) :=
  g.nodes.filterMap (fun n =>
    if n.kind == NKind.message && n.embedding.isNone && n.content.isSome
    then n.content.map (fun c => (n.key, c)) else Option.none)

/-- `FETCH_UNPROCESSED_SOURCES`: `(s:Source) WHERE s.text IS NOT NULL AND NOT
(s)-[:FIRST]->()`, returning `(url, text)`. -/
def fetchUnprocessedSources (g : Graph) : List (String × String) :=
  g.nodes.filterMap (fun n =>
    if n.kind == NKind.source && n.text.isSome && !(hasFirstOut g (n.kind, n.key))
    then n.text.map (fun t => (n.key, t)) else Option.none)

def chunkId (url : String) (i : Nat) : String := url ++ "_" ++ toString i

/-- The pairwise `UNWIND` of `WRITE_CHUNKS`: `MATCH` the previous chunk (a
missing match kills the row), merge the next chunk and the `NEXT` edge. -/
def writeChunksPairs (url : String) : Graph → List ((Nat × String) × (Nat × String)) → Graph
  | g, [] => g
  | g, (p0, p1) :: rest =>
    if hasNode g (NKind.chunk, chunkId url p0.1) then
      let g := mergeNode g
        { kind := .chunk, key := chunkId url p1.1, content := some p1.2, index := some p1.1 }
      let g := mergeEdge g ⟨.next, (NKind.chunk, chunkId url p0.1), (NKind.chunk, chunkId url p1.1)⟩
      writeChunksPairs url g rest
    else writeChunksPairs url g rest

/-- `WRITE_CHUNKS` (queries.py): match the source (no row when absent), merge
chunk 0 with a `FIRST` edge, then chain the remaining chunks via `NEXT`. -/
def writeChunks (url : String) (chunks : List (Nat × String)) (g : Graph) : Graph :=
  if hasNode g (NKind.source, url) then
    let g := mergeNode g
      { kind := .chunk, key := chunkId url 0, content := chunks.head?.map (·.2),
        index := some 0 }
    let g := mergeEdge g ⟨.first, (NKind.source, url), (NKind.chunk, chunkId url 0)⟩
    writeChunksPairs url g (chunks.zip chunks.tail)
  else g

/-- `_chunk_and_store_source` (embedder.py): split, embed, persist the
text-only chunk chain (`WRITE_CHUNKS`), then write the chunk vectors. -/
def chunkAndStoreSource (emb : String → List Int) (split : String → List String)
    (url text : String) (g : Graph) : Graph :=
  if (split text).isEmpty then g
  else
    writeVectorBatch NKind.chunk (writeChunks url (split text).enum g)
      ((split text).enum.map (fun p => (chunkId url p.1, emb p.2)))

def processSourcesList (emb : String → List Int) (split : String → List String) :
    Graph → List (String × String) → Graph
  | g, [] => g
  | g, (url, text) :: rest =>
    processSourcesList emb split (chunkAndStoreSource emb split url text g) rest

/-- `process_pending_nodes` (embedder.py): Phase A embeds unembedded Message
nodes; Phase B chunks and embeds unprocessed Source nodes. -/
def process_pending_nodes (emb : String → List Int) (split : String → List String)
    (g : Graph) : Graph :=
  processSourcesList emb split
    (writeVectorBatch NKind.message g
      ((fetchUnembeddedMessages g).map (fun r => (r.1, emb r.2))))
    (fetchUnprocessedSources (writeVectorBatch NKind.message g
      ((fetchUnembeddedMessages g).map (fun r => (r.1, emb r.2)))))

/-- A maintenance run that crashes inside `_chunk_and_store_source` of the
first pending source, after `WRITE_CHUNKS` committed but before the chunk
vector batch was written (the crash point named by the spec). -/
def processPendingCrashed (emb : String → List Int) (split : String → List String)
    (g : Graph) : Graph :=
  let recs := fetchUnembeddedMessages g
  let g := writeVectorBatch NKind.message g (recs.map (fun r => (r.1, emb r.2)))
  match fetchUnprocessedSources g with
  | [] => g
  | (url, text) :: _ =>
    let chunks := split text
    if chunks.isEmpty then g else writeChunks url chunks.enum g

/-! ## VECTOR_LOOKUP (queries.py)

The two vector-index probes (`db.index.vector.queryNodes`, top 3) are store
primitives; their output enters as the `msgMatches` / `chunkMatches`
arguments, each a `(node, score)` list.  After the `score > 1 - EP` filter
the first branch runs `OPTIONAL MATCH
(m)-[:NEXT]->{0,1}()-[:SOURCED]->(:Source|Chunk)-[:FIRST]->*(n WHERE
n.content IS NOT null)` — note that `m` is an otherwise unused variable, not
`node`, so the pattern is matched against the whole graph for every row — and
returns `DISTINCT n.id, node.content`; the second branch returns the chunk
matches directly; `UNION DISTINCT` dedupes the union. -/

def EP : ℚ := 1/10

/-- `n.id`: the `id` property.  `User` nodes are keyed by `email` and
`Source` nodes by `url`, so `.id` is null on those labels. -/
def propId (n : Node) : Option String :=
  match n.kind with
  | .user => Option.none
  | .source => Option.none
  | _ => some n.key

/-- Targets of `-[:FIRST]->*` (zero or more hops, trail semantics). -/
def firstReach (g : Graph) : List Edge → Ref → Nat → List Ref
  | _, cur, 0 => [cur]
  | used, cur, fuel + 1 =>
    cur :: ((g.edges.filter (fun e => e.typ == .first && e.src == cur && !(used.contains e))).map
      (fun e => firstReach g (e :: used) e.dst fuel)).flatten

/-- `(m)-[:NEXT]->{0,1}()`: zero or one forward `NEXT` hop from `m`. -/
def nextHops01 (g : Graph) (r : Ref) : List Ref :=
  r :: g.edges.filterMap (fun e =>
    if e.typ == .next && e.src == r then some e.dst else Option.none)

/-- `-[:SOURCED]->(:Source|Chunk)` targets out of `y`. -/
def sourcedTargets (g : Graph) (y : Ref) : List Ref :=
  g.edges.filterMap (fun e =>
    if e.typ == .sourced && e.src == y &&
       (e.dst.1 == NKind.source || e.dst.1 == NKind.chunk)
    then some e.dst else Option.none)

/-- `(n WHERE n.content IS NOT null)` along `-[:FIRST]->*` from `x`. -/
def firstChainContentNodes (g : Graph) (x : Ref) : List Node :=
  (firstReach g [] x (g.edges.length + 1)).filterMap (fun nref =>
    match findNode g nref with
    | some n => if n.content.isSome then some n else Option.none
    | Option.none => Option.none)

/-- All instantiations of the unanchored expansion pattern in the graph:
every node `m`, `0..1` `NEXT` hops, a `SOURCED` edge to a `Source|Chunk`,
`FIRST*` to a node with non-null content. -/
def expansionTargets (g : Graph) : List Node :=
  (g.nodes.map (fun m =>
    ((nextHops01 g m.ref).map (fun y =>
      ((sourcedTargets g y).map (fun x => firstChainContentNodes g x)).flatten)).flatten)).flatten

def distinctRows : List (Option String × Option String) → List (Option String × Option String) :=
  List.foldl (fun acc x => if acc.contains x then acc else acc ++ [x]) []

/-- `VECTOR_LOOKUP`: message branch (threshold filter, unanchored expansion,
`RETURN DISTINCT n.id, node.content`) `UNION DISTINCT` chunk branch
(`RETURN DISTINCT node.id, node.content`). -/
def vectorLookup (g : Graph) (msgMatches chunkMatches : List (Node × ℚ)) :
    List (Option String × Option String) :=
  distinctRows
    (((msgMatches.filter (fun p => p.2 > 1 - EP)).map (fun p =>
        match expansionTargets g with
        | [] => [(Option.none, p.1.content)]
        | ts => ts.map (fun n => (propId n, p.1.content)))).flatten ++
      (chunkMatches.filter (fun p => p.2 > 1 - EP)).map (fun p =>
        (propId p.1, p.1.content)))

/-! ## Infrastructure lemmas -/

/-- Graph growth: writes only ever add nodes and edges. -/
def GSub (a b : Graph) : Prop := a.nodes ⊆ b.nodes ∧ a.edges ⊆ b.edges

theorem GSub.rfl {g : Graph} : GSub g g := ⟨List.Subset.refl _, List.Subset.refl _⟩

theorem GSub.trans {a b c : Graph} (h1 : GSub a b) (h2 : GSub b c) : GSub a c :=
  ⟨h1.1.trans h2.1, h1.2.trans h2.2⟩

theorem mergeNode_edges (g : Graph) (n : Node) : (mergeNode g n).edges = g.edges := by
  unfold mergeNode; split <;> rfl

theorem mergeEdge_nodes (g : Graph) (e : Edge) : (mergeEdge g e).nodes = g.nodes := by
  unfold mergeEdge; split <;> rfl

theorem GSub_mergeNode (g : Graph) (n : Node) : GSub g (mergeNode g n) := by
  unfold mergeNode; split
  · exact GSub.rfl
  · exact ⟨List.subset_append_left _ _, List.Subset.refl _⟩

theorem GSub_mergeEdge (g : Graph) (e : Edge) : GSub g (mergeEdge g e) := by
  unfold mergeEdge; split
  · exact GSub.rfl
  · exact ⟨List.Subset.refl _, List.subset_append_left _ _⟩

theorem mergeEdge_mem_self (g : Graph) (e : Edge) : e ∈ (mergeEdge g e).edges := by
  unfold mergeEdge; split
  · next h => exact List.mem_of_elem_eq_true h
  · exact List.mem_append_right _ (List.mem_singleton_self e)

theorem mergeNode_mem_self (g : Graph) (n : Node) :
    ∃ m ∈ (mergeNode g n).nodes, m.kind = n.kind ∧ m.key = n.key := by
  unfold mergeNode; split
  · next h =>
    simp only [hasNode, List.any_eq_true, Bool.and_eq_true, beq_iff_eq] at h
    exact h
  · exact ⟨n, List.mem_append_right _ (List.mem_singleton_self n), rfl, rfl⟩

theorem hasNode_iff {g : Graph} {r : Ref} :
    hasNode g r = true ↔ ∃ n ∈ g.nodes, n.kind = r.1 ∧ n.key = r.2 := by
  simp [hasNode, List.any_eq_true, Bool.and_eq_true, beq_iff_eq]

theorem hasNode_of_sub {g g' : Graph} (h : g.nodes ⊆ g'.nodes) {r : Ref}
    (hr : hasNode g r = true) : hasNode g' r = true := by
  rw [hasNode_iff] at hr ⊢
  obtain ⟨n, hn, hk⟩ := hr
  exact ⟨n, h hn, hk⟩

theorem mergeNode_of_hasNode {g : Graph} {n : Node}
    (h : hasNode g (n.kind, n.key) = true) : mergeNode g n = g := by
  unfold mergeNode; simp [h]

theorem mergeEdge_of_mem {g : Graph} {e : Edge} (h : e ∈ g.edges) : mergeEdge g e = g := by
  unfold mergeEdge
  rw [if_pos (List.elem_eq_true_of_mem h)]

theorem GSub_addSourcedEdges (r : Ref) : ∀ (l : List Ref) (g : Graph),
    GSub g (addSourcedEdges r g l) := by
  intro l
  induction l with
  | nil => intro g; exact GSub.rfl
  | cons x rest ih =>
    intro g
    exact (GSub_mergeEdge g _).trans (ih (mergeEdge g ⟨.sourced, r, x⟩))

theorem addSourcedEdges_nodes (r : Ref) : ∀ (l : List Ref) (g : Graph),
    (addSourcedEdges r g l).nodes = g.nodes := by
  intro l
  induction l with
  | nil => intro g; rfl
  | cons x rest ih =>
    intro g
    rw [addSourcedEdges, ih, mergeEdge_nodes]

theorem mergeSources_ok_sub (o : Ref) : ∀ (l : List SrcEntry) (g g' : Graph),
    mergeSources o g l = .ok g' → GSub g g' := by
  intro l
  induction l with
  | nil => intro g g' h; cases h; exact GSub.rfl
  | cons s rest ih =>
    intro g g' h
    rw [mergeSources] at h
    cases hu : mergeKey s.url with
    | error e => rw [hu] at h; cases h
    | ok u =>
      rw [hu] at h
      exact ((GSub_mergeNode g _).trans (GSub_mergeEdge _ _)).trans (ih _ _ h)

theorem GSub_pairToolLink (g : Graph) (mRef : Ref) (m0 : SMsg) :
    GSub g (pairToolLink g mRef m0) := by
  unfold pairToolLink
  split
  · exact GSub.rfl
  · split
    · exact (GSub_mergeEdge _ _).trans (GSub_addSourcedEdges _ _ _)
    · exact GSub.rfl

theorem GSub_pairChainAppend (tid : String) (g : Graph) (mRef : Ref) :
    GSub g (pairChainAppend tid g mRef) := by
  unfold pairChainAppend
  split
  · exact GSub.rfl
  · exact GSub_mergeEdge _ _

theorem processPair_ok_sub {tid : String} {g g' : Graph} {m0 m1 : SMsg}
    (h : processPair tid g m0 m1 = .ok g') : GSub g g' := by
  unfold processPair at h
  split at h
  · cases hk : idKey m1.id with
    | error e => rw [hk] at h; cases h
    | ok mid =>
      rw [hk] at h
      exact (GSub_mergeNode g _).trans (mergeSources_ok_sub _ _ _ _ h)
  · cases hk : idKey m1.id with
    | error e => rw [hk] at h; cases h
    | ok mid =>
      rw [hk] at h
      cases h
      exact ((GSub_mergeNode g _).trans (GSub_pairToolLink _ _ _)).trans
        (GSub_pairChainAppend _ _ _)

theorem processPairs_ok_sub {tid : String} : ∀ (ps : List (SMsg × SMsg)) (g g' : Graph),
    processPairs tid g ps = .ok g' → GSub g g' := by
  intro ps
  induction ps with
  | nil => intro g g' h; cases h; exact GSub.rfl
  | cons p rest ih =>
    intro g g' h
    rw [processPairs] at h
    cases hp : processPair tid g p.1 p.2 with
    | error e => rw [hp] at h; cases h
    | ok g1 =>
      rw [hp] at h
      exact (processPair_ok_sub hp).trans (ih _ _ h)

theorem processFirstBlock_ok_sub {tid : String} {msgs : List SMsg} {g g' : Graph}
    (h : processFirstBlock tid msgs g = .ok g') : GSub g g' := by
  unfold processFirstBlock at h
  split at h
  · cases h; exact GSub.rfl
  · split at h
    · cases h
    · next m _ =>
      cases hk : idKey m.id with
      | error e => rw [hk] at h; cases h
      | ok mid =>
        rw [hk] at h
        cases h
        exact (GSub_mergeNode g _).trans (GSub_mergeEdge _ _)

theorem GSub_mergeUserThread (uid tid : String) (g : Graph) :
    GSub g (mergeUserThread uid tid g) :=
  ((GSub_mergeNode g _).trans (GSub_mergeNode _ _)).trans (GSub_mergeEdge _ _)

theorem mergeConversationTurn_ok_sub {uid tid : String} {msgs : List SMsg} {g g' : Graph}
    (h : mergeConversationTurn uid tid msgs g = .ok g') : GSub g g' := by
  unfold mergeConversationTurn at h
  cases hf : processFirstBlock tid msgs (mergeUserThread uid tid g) with
  | error e => rw [hf] at h; cases h
  | ok g1 =>
    rw [hf] at h
    exact (GSub_mergeUserThread uid tid g).trans
      ((processFirstBlock_ok_sub hf).trans (processPairs_ok_sub _ _ _ h))

/-! ## Concrete instances used by counterexamples and witnesses

`jparseNone` is a `json.loads` instantiation on inputs where parsing is never
reached or always fails; `embOne`/`splitOne` instantiate the embedding
provider and the text splitter with minimal deterministic collaborators. -/

def jparseNone : String → Option PyVal := fun _ => Option.none

def embOne : String → List Int := fun _ => [1]

def splitOne : String → List String := fun t => [t]

/-- `[user "hi", assistant "yo"]`, already serialized. -/
def exBatchTwo : List SMsg :=
  [{ id := some "m0", index := 0, role := "user", content := some "hi",
     sources := Option.none },
   { id := some "m1", index := 1, role := "assistant", content := some "yo",
     sources := Option.none }]

/-- A batch that starts with the tool turn: `[tool tc1, assistant r1]`. -/
def exBatchToolFirst : List SMsg :=
  [{ id := some "tc1", index := 0, role := "tool", content := Option.none,
     sources := some [{ url := .str "https://x", title := .str "T", content := "doc" }] },
   { id := some "r1", index := 1, role := "assistant", content := some "ans",
     sources := Option.none }]

/-- `[user m0, tool tc1 (one source), assistant r1]`. -/
def exBatchUTR : List SMsg :=
  [{ id := some "m0", index := 0, role := "user", content := some "q",
     sources := Option.none },
   { id := some "tc1", index := 1, role := "tool", content := Option.none,
     sources := some [{ url := .str "https://x", title := .str "T", content := "doc" }] },
   { id := some "r1", index := 2, role := "assistant", content := some "ans",
     sources := Option.none }]

/-- A raw two-message conversation with external ids. -/
def exRawBatch : List RawMsg :=
  [{ rrole := .human, id := some "m0", content := .str "hi" },
   { rrole := .ai, id := some "m1", content := .str "yo" }]

/-- A graph holding one crawled, not yet chunked source. -/
def exSourceOnly : Graph :=
  { nodes := [{ kind := .source, key := "u", title := some (.str "T"), text := some "doc" }],
    edges := [] }

/-- Vector-lookup scenario: matched message `M1` (no `SOURCED` path of its
own), an unrelated message `M2` with a `SOURCED` edge to chunk `c1`. -/
def exMatchedMsg : Node :=
  { kind := .message, key := "M1", role := some "assistant", content := some "ans",
    embedding := some [1] }

def exLookupGraph : Graph :=
  { nodes := [exMatchedMsg,
              { kind := .message, key := "M2", role := some "assistant", content := some "other" },
              { kind := .chunk, key := "c1", content := some "doc", index := some 0 }],
    edges := [⟨.sourced, (NKind.message, "M2"), (NKind.chunk, "c1")⟩] }

/-- A 600-character tool-result snippet. -/
def exLong600 : String := String.mk (List.replicate 600 'a')

/-- A tool payload carrying one source whose content has 600 characters. -/
def exPayload600 : PyVal :=
  .list (pyList [.dict (.cons "url" (.str "https://x")
    (.cons "content" (.str exLong600) .nil))])

/-- Extract the committed graph of a successful statement (used to name the
post-state of a concrete run inside closed witness statements). -/
def okOr (x : Except String Graph) : Graph :=
  match x with
  | .ok g => g
  | .error _ => graphEmpty

/-! ## C2 — counterexample

Running the same two-message batch twice from the empty graph keeps the node
count at 4 but raises the edge count from 3 to 4: the second call's chain
append finds the chain tail `m1` and merges a fresh `NEXT` self-loop
`(m1)-[:NEXT]->(m1)`, so "same node/edge count" fails. -/

/-- C2 (counterexample): `write_turn` twice with the identical batch
`[user "hi", assistant "yo"]` on an empty store yields 4 nodes / 4 edges,
while a single call yields 4 nodes / 3 edges — the claimed edge-count
equality is false. -/
theorem c2_counterexample :
    (mergeConversationTurn "u" "t" exBatchTwo graphEmpty).map
        (fun g => (g.nodes.length, g.edges.length)) = .ok (4, 3) ∧
    ((mergeConversationTurn "u" "t" exBatchTwo graphEmpty).bind
        (mergeConversationTurn "u" "t" exBatchTwo)).map
        (fun g => (g.nodes.length, g.edges.length)) = .ok (4, 4) := by
  exact ⟨rfl, rfl⟩

/-! ## C3 — counterexample

With the tool turn at batch position 0 on a fresh thread, the first-message
block creates it as a plain `:Message`; no `:ToolCall` node exists, the reply
gets no `TRIGGERED` edge, and the tool turn's node sits inside the `NEXT`
chain. -/

/-- C3 (counterexample): for the batch `[tool tc1, assistant r1]` on an empty
store, the committed graph has no ToolCall node, no `TRIGGERED` edge, and the
tool turn's node has an outgoing `NEXT` edge (it is part of the chain) — all
three contradicting the claim for this batch. -/
theorem c3_counterexample :
    (mergeConversationTurn "u" "t" exBatchToolFirst graphEmpty).map (fun g =>
      (g.nodes.any (fun n => n.kind == NKind.toolCall),
       g.edges.any (fun e => e.typ == EType.triggered),
       g.edges.any (fun e => e.typ == EType.next && e.src == (NKind.message, "tc1")))) =
    .ok (false, false, true) := by
  exact rfl

/-! ## C4 — counterexample

After a crash between `WRITE_CHUNKS` and the chunk vector batch, chunk `u_0`
has content and no embedding; a subsequent complete `process_pending_nodes`
leaves it that way: Phase A's pick-up predicate matches only `:Message`
nodes, and Phase B skips the source because it already has a `FIRST` edge. -/

/-- C4 (counterexample): on the post-crash state, a full maintenance run
still leaves chunk `u_0` with non-null content and a null embedding. -/
theorem c4_counterexample :
    (findNode (process_pending_nodes embOne splitOne
        (processPendingCrashed embOne splitOne exSourceOnly))
      (NKind.chunk, "u_0")).map (fun n => (n.content.isSome, n.embedding.isSome)) =
    some (true, false) := by
  exact rfl

/-! ## C5 — the expansion is not anchored at the matched message

In `VECTOR_LOOKUP` the expansion pattern begins at `(m)` although the matched
node is bound as `node`: `m` is a fresh, otherwise unused variable, so the
`OPTIONAL MATCH` ranges over every node of the graph.  Below, the matched
message `M1` has no `SOURCED` path at all, yet the returned row carries the
id of chunk `c1`, reached by expanding the unrelated message `M2`. -/

/-- C5 (code evaluated at the failing input): with `M1` the only match (score
1.0) in a graph where only the unrelated `M2` has a `SOURCED` path, the query
returns `(c1, ans)` — an expansion-target id the matched message is not
connected to, paired with the matched message's content. -/
theorem c5_unanchored_expansion :
    vectorLookup exLookupGraph [(exMatchedMsg, 1)] [] = [(some "c1", some "ans")] := by
  have hb : decide ((1 : ℚ) > 1 - EP) = true := decide_eq_true (by norm_num [EP])
  unfold vectorLookup
  simp only [List.filter_cons, List.filter_nil, hb, if_true]
  rfl

/-! ## C7 — counterexample

`save_chat_history` serializes `"id": msg.id` unconditionally (the call to
the deterministic `_generate_id` is commented out), so a message without an
external id is serialized with a null id — not with the hash. -/

/-- C7 (counterexample): a kept user message with no external id is assigned
the id `none` by the primary serialization path; since a derived hash would
be a (some) string, the claimed hash fallback does not exist. -/
theorem c7_counterexample :
    (serializeMessages jparseNone
      [{ rrole := .human, id := Option.none, content := .str "hi" }]).map (·.id) =
    [Option.none] := by
  exact rfl

/-! ## C8 — counterexample

`_extract_sources` (the `save_chat_history` path) stores
`_clean_content(item.get("content", ""))` with no truncation; the
500-character cap exists only in the `memory.py` variant. -/

set_option maxRecDepth 4000 in
/-- C8 (counterexample): a kept source entry with a 600-character content is
stored by `_extract_sources` with all 600 characters, contradicting the
claimed 500-character truncation. -/
theorem c8_counterexample :
    (extractSources jparseNone exPayload600).map (·.content.length) = [600] := by
  exact rfl

/-! ## C1 — counterexample

`save_chat_history` wraps the writes in `try: ... except Exception: log`.
A permanent failure is logged, the graph write is lost, and the function
returns `None` exactly as in the success case: nothing typed reaches the
caller. -/

/-- C1 (counterexample): on a permanently failing write path the function
does not raise and returns the same `None` as the successful run — the
failure is visible only in the log (and the graph is unchanged), so no typed
failure is surfaced to the immediate caller. -/
theorem c1_counterexample :
    (save_chat_history jparseNone "u" "t" exRawBatch [] (fun _ => true) graphEmpty).raised
      = false ∧
    (save_chat_history jparseNone "u" "t" exRawBatch [] (fun _ => true) graphEmpty).retval
      = (save_chat_history jparseNone "u" "t" exRawBatch [] (fun _ => false) graphEmpty).retval ∧
    (save_chat_history jparseNone "u" "t" exRawBatch [] (fun _ => true) graphEmpty).graph
      = graphEmpty ∧
    (save_chat_history jparseNone "u" "t" exRawBatch [] (fun _ => true) graphEmpty).errorLog
      ≠ [] := by
  refine ⟨rfl, rfl, rfl, ?_⟩
  decide

/-! ## C6 — per-batch atomicity of the conversation write

Steps 1–3 of the writer (user/thread upsert, message/toolcall/source upserts,
chain append) are all inside the single statement `MERGE_CONVERSATION_TURN`;
the only other statement the function issues is the separate context
link-back.  So the committed graph is never a partial application of the
batch: it is either the pre-state (the write failed and rolled back) or the
full merge result (possibly extended by the link-back statement). -/

theorem saveLink_graph (ctx : List String) (fails : Nat → Bool) (msgs : List SMsg)
    (g1 : Graph) :
    (saveLink ctx fails msgs g1).graph = g1 ∨
    ∃ mid, (saveLink ctx fails msgs g1).graph = linkSourcesQuery mid ctx g1 := by
  unfold saveLink
  split
  · left; rfl
  · split
    · left; rfl
    · split
      · left; rfl
      · split
        · left; rfl
        · next mid _ => right; exact ⟨mid, rfl⟩

theorem saveWrites_atomic (uid tid : String) (msgs : List SMsg)
    (ctx : List String) (fails : Nat → Bool) (g : Graph) :
    (saveWrites uid tid msgs ctx fails g).graph = g ∨
    ∃ g1, mergeConversationTurn uid tid msgs g = .ok g1 ∧
      ((saveWrites uid tid msgs ctx fails g).graph = g1 ∨
       ∃ mid, (saveWrites uid tid msgs ctx fails g).graph = linkSourcesQuery mid ctx g1) := by
  unfold saveWrites
  split
  · left; rfl
  · split
    · left; rfl
    · next g1 hm => right; exact ⟨g1, hm, saveLink_graph ctx fails msgs g1⟩

/-- C6: every `save_chat_history` invocation leaves the graph either
unchanged (the batch statement failed and was rolled back) or with
`MERGE_CONVERSATION_TURN` — user/thread upsert, all message/toolcall/source
upserts and the chain append, one atomic statement — fully applied, possibly
followed by the separate link-back statement; never a half-applied batch. -/
theorem c6_batch_atomicity (jparse : String → Option PyVal) (uid tid : String)
    (raws : List RawMsg) (ctx : List String) (fails : Nat → Bool) (g : Graph) :
    (save_chat_history jparse uid tid raws ctx fails g).graph = g ∨
    ∃ g1, mergeConversationTurn uid tid (serializeMessages jparse raws) g = .ok g1 ∧
      ((save_chat_history jparse uid tid raws ctx fails g).graph = g1 ∨
       ∃ mid, (save_chat_history jparse uid tid raws ctx fails g).graph =
         linkSourcesQuery mid ctx g1) :=
  saveWrites_atomic uid tid (serializeMessages jparse raws) ctx fails g

/-! ## C1 — amended failure behaviour of save_chat_history -/

theorem saveWrites_contained (uid tid : String) (msgs : List SMsg)
    (ctx : List String) (fails : Nat → Bool) (g : Graph) :
    (saveWrites uid tid msgs ctx fails g).raised = false ∧
    (saveWrites uid tid msgs ctx fails g).retval = PyVal.none := by
  unfold saveWrites saveLink
  split
  · exact ⟨rfl, rfl⟩
  · split
    · exact ⟨rfl, rfl⟩
    · split
      · exact ⟨rfl, rfl⟩
      · split
        · exact ⟨rfl, rfl⟩
        · split
          · exact ⟨rfl, rfl⟩
          · split
            · exact ⟨rfl, rfl⟩
            · exact ⟨rfl, rfl⟩

/-- C1 (amended): `save_chat_history` never raises past the conversation
boundary and always returns `None`; when the batch write fails permanently
the graph is left unchanged and an error is logged — the failure reaches the
caller only through the log, not as a typed value. -/
theorem c1_save_failure_contained (jparse : String → Option PyVal) (uid tid : String)
    (raws : List RawMsg) (ctx : List String) (fails : Nat → Bool) (g : Graph)
    (hf : fails 0 = true) :
    (save_chat_history jparse uid tid raws ctx fails g).raised = false ∧
    (save_chat_history jparse uid tid raws ctx fails g).retval = PyVal.none ∧
    (save_chat_history jparse uid tid raws ctx fails g).graph = g ∧
    (save_chat_history jparse uid tid raws ctx fails g).errorLog ≠ [] := by
  refine ⟨(saveWrites_contained uid tid _ ctx fails g).1,
          (saveWrites_contained uid tid _ ctx fails g).2, ?_, ?_⟩
  · show (saveWrites uid tid _ ctx fails g).graph = g
    unfold saveWrites
    rw [if_pos hf]
  · show (saveWrites uid tid _ ctx fails g).errorLog ≠ []
    unfold saveWrites
    rw [if_pos hf]
    intro hc
    cases hc

/-! ## C9 — batch position 0 on a non-empty thread

In the pairwise pass only `msg_1` of each pair is merged, i.e. node creation
ranges over batch positions `1..n-1`; position 0 is merged solely by the
first-message block, which is skipped whenever the thread already has a
`FIRST` edge.  Hence a one-element batch on a non-empty thread merges only
the user/thread prelude: no Message or ToolCall node, no chain change. -/

theorem hasFirstOut_of_sub {g g' : Graph} (h : g.edges ⊆ g'.edges) {r : Ref}
    (hr : hasFirstOut g r = true) : hasFirstOut g' r = true := by
  simp only [hasFirstOut, List.any_eq_true] at hr ⊢
  obtain ⟨e, he, hp⟩ := hr
  exact ⟨e, h he, hp⟩

theorem filter_nodes_mergeNode {p : Node → Bool} {n : Node} (hp : p n = false) (g : Graph) :
    (mergeNode g n).nodes.filter p = g.nodes.filter p := by
  unfold mergeNode; split
  · rfl
  · simp [List.filter_append, hp]

theorem filter_edges_mergeEdge {p : Edge → Bool} {e : Edge} (hp : p e = false) (g : Graph) :
    (mergeEdge g e).edges.filter p = g.edges.filter p := by
  unfold mergeEdge; split
  · rfl
  · simp [List.filter_append, hp]

theorem processFirstBlock_skip {tid : String} {g : Graph}
    (h : hasFirstOut g (NKind.thread, tid) = true) (msgs : List SMsg) :
    processFirstBlock tid msgs g = .ok g := by
  unfold processFirstBlock; rw [if_pos h]

/-- C9: on a thread that already has a `FIRST` edge the first-message block
is a no-op for every batch, and a one-element batch commits exactly the
user/thread prelude: the store's Message/ToolCall nodes, its `NEXT` edges and
its `FIRST` edges are all unchanged. -/
theorem c9_position_zero (uid tid : String) (m : SMsg) (g : Graph)
    (hfirst : hasFirstOut g (NKind.thread, tid) = true) :
    (∀ msgs, processFirstBlock tid msgs g = .ok g) ∧
    mergeConversationTurn uid tid [m] g = .ok (mergeUserThread uid tid g) ∧
    (mergeUserThread uid tid g).nodes.filter
        (fun n => n.kind == NKind.message || n.kind == NKind.toolCall) =
      g.nodes.filter (fun n => n.kind == NKind.message || n.kind == NKind.toolCall) ∧
    (mergeUserThread uid tid g).edges.filter (fun e => e.typ == EType.next) =
      g.edges.filter (fun e => e.typ == EType.next) ∧
    (mergeUserThread uid tid g).edges.filter (fun e => e.typ == EType.first) =
      g.edges.filter (fun e => e.typ == EType.first) := by
  have hfirst' : hasFirstOut (mergeUserThread uid tid g) (NKind.thread, tid) = true :=
    hasFirstOut_of_sub (GSub_mergeUserThread uid tid g).2 hfirst
  refine ⟨fun msgs => processFirstBlock_skip hfirst msgs, ?_, ?_, ?_, ?_⟩
  · unfold mergeConversationTurn
    rw [processFirstBlock_skip hfirst' [m]]
    rfl
  · unfold mergeUserThread
    rw [mergeEdge_nodes, filter_nodes_mergeNode rfl, filter_nodes_mergeNode rfl]
  · unfold mergeUserThread
    rw [filter_edges_mergeEdge rfl, mergeNode_edges, mergeNode_edges]
  · unfold mergeUserThread
    rw [filter_edges_mergeEdge rfl, mergeNode_edges, mergeNode_edges]

/-- A non-empty thread: `t` already has `FIRST -> m0`. -/
def exThreadGraph : Graph :=
  { nodes := [{ kind := .thread, key := "t" },
              { kind := .message, key := "m0", role := some "user", content := some "q",
                index := some 0 }],
    edges := [⟨.first, (NKind.thread, "t"), (NKind.message, "m0")⟩] }

/-- A one-element serialized batch. -/
def exMsgW : SMsg :=
  { id := some "mX", index := 0, role := "user", content := some "hi",
    sources := Option.none }

/-- C9 (witness): the theorem applied to the non-empty thread `t` and the
one-element batch `[mX]`. -/
theorem c9_witness :
    mergeConversationTurn "u" "t" [exMsgW] exThreadGraph =
      .ok (mergeUserThread "u" "t" exThreadGraph) ∧
    (mergeUserThread "u" "t" exThreadGraph).nodes.filter
        (fun n => n.kind == NKind.message || n.kind == NKind.toolCall) =
      exThreadGraph.nodes.filter
        (fun n => n.kind == NKind.message || n.kind == NKind.toolCall) :=
  ⟨(c9_position_zero "u" "t" exMsgW exThreadGraph (by decide)).2.1,
   (c9_position_zero "u" "t" exMsgW exThreadGraph (by decide)).2.2.1⟩

/-! ## C7 — amended identity assignment

`save_chat_history` always serializes `"id": msg.id` — the commented-out
call to `_generate_id` never runs, so a missing external id stays null instead
of falling back to the hash.  The `persist_chat` variant always assigns the
deterministic hash, ignoring any external id.  Neither path draws a random
id: both serializers are pure functions of their inputs. -/

theorem serializeLoop_id_from_raw (jparse : String → Option PyVal) :
    ∀ (raws : List RawMsg) (idx : Nat) (e : SMsg),
      e ∈ serializeLoop jparse raws idx → ∃ r ∈ raws, e.id = r.id := by
  intro raws
  induction raws with
  | nil => intro idx e h; cases h
  | cons m rest ih =>
    intro idx e h
    rw [serializeLoop] at h
    cases hro : roleOf m.rrole with
    | none =>
      rw [hro] at h
      obtain ⟨r, hrr, hid⟩ := ih idx e h
      exact ⟨r, List.mem_cons_of_mem _ hrr, hid⟩
    | some role =>
      rw [hro] at h
      have h' : e ∈ (if pyStrip (clean_content m.content) == "" then
          serializeLoop jparse rest idx
        else
          { id := m.id, index := idx, role := role,
            content := if role == "user" || role == "assistant" then
              some (clean_content m.content) else Option.none,
            sources := if role == "tool" then
              some (extractSources jparse m.content) else Option.none } ::
            serializeLoop jparse rest (idx + 1)) := h
      split at h'
      · obtain ⟨r, hrr, hid⟩ := ih idx e h'
        exact ⟨r, List.mem_cons_of_mem _ hrr, hid⟩
      · rcases List.mem_cons.mp h' with he | hrest
        · exact ⟨m, List.mem_cons_self _ _, by rw [he]⟩
        · obtain ⟨r, hrr, hid⟩ := ih (idx + 1) e hrest
          exact ⟨r, List.mem_cons_of_mem _ hrr, hid⟩

theorem serializeLoopP_id_hash (md5hex : String → String)
    (jparse : String → Option PyVal) (tid : String) :
    ∀ (raws : List RawMsg) (idx : Nat) (e : PMsg),
      e ∈ serializeLoopP md5hex jparse tid raws idx →
      e.id = generate_message_id md5hex tid e.index e.role e.content := by
  intro raws
  induction raws with
  | nil => intro idx e h; cases h
  | cons m rest ih =>
    intro idx e h
    rw [serializeLoopP] at h
    have h' : e ∈ (if clean_content m.content == "" ||
        pyStrip (clean_content m.content) == "" then
        serializeLoopP md5hex jparse tid rest idx
      else
        { id := generate_message_id md5hex tid idx (roleOfP m.rrole) (clean_content m.content),
          index := idx, role := roleOfP m.rrole, content := clean_content m.content,
          sources := if m.rrole == RawRole.tool then
            extract_sources_m jparse m.content else [] } ::
          serializeLoopP md5hex jparse tid rest (idx + 1)) := h
    split at h'
    · exact ih idx e h'
    · rcases List.mem_cons.mp h' with he | hrest
      · rw [he]
      · exact ih (idx + 1) e hrest

/-- C7 (amended): in the primary path every serialized turn carries the
externally supplied `msg.id` of one of the raw messages (no hash fallback
fires; a missing id stays null), while in the `persist_chat` variant every
serialized turn's id is exactly the deterministic hash of
`(thread_id, index, role, first 50 characters of normalized content)` —
neither path assigns a random id. -/
theorem c7_id_assignment :
    (∀ (jparse : String → Option PyVal) (raws : List RawMsg) (e : SMsg),
        e ∈ serializeMessages jparse raws → ∃ r ∈ raws, e.id = r.id) ∧
    (∀ (md5hex : String → String) (jparse : String → Option PyVal) (tid : String)
        (raws : List RawMsg) (e : PMsg),
        e ∈ serializeMessagesP md5hex jparse tid raws →
        e.id = generate_message_id md5hex tid e.index e.role e.content) :=
  ⟨fun jp raws e h => serializeLoop_id_from_raw jp raws 0 e h,
   fun md5 jp tid raws e h => serializeLoopP_id_hash md5 jp tid raws 0 e h⟩

/-- The first entry serialized from `exRawBatch`. -/
def exEntryW : SMsg :=
  { id := some "m0", index := 0, role := "user", content := some "hi",
    sources := Option.none }

/-- C7 (witness): both parts applied at concrete inputs — the primary path's
first entry carries the raw message's id, and the `persist_chat` entry for
`user "hi"` in thread `t` carries the hash of `t-0-user-hi`. -/
theorem c7_witness :
    (∃ r ∈ exRawBatch, exEntryW.id = r.id) ∧
    ({ id := generate_message_id (fun s => s) "t" 0 "user" "hi", index := 0,
       role := "user", content := "hi", sources := [] } : PMsg).id =
      generate_message_id (fun s => s) "t" 0 "user" "hi" :=
  ⟨c7_id_assignment.1 jparseNone exRawBatch exEntryW (by decide),
   c7_id_assignment.2 (fun s => s) jparseNone "t"
     [{ rrole := .human, id := some "m0", content := .str "hi" }] _ (by decide)⟩

/-! ## C8 — amended source extraction

What survives of the claim: string payloads are parsed as JSON and an
unparsable payload yields `[]` (both variants); a single mapping is treated
as a one-element list (primary path); only dict items with a present `"url"`
key produce entries.  What the counterexample forces out: the primary path
stores the cleaned content untruncated — the 500-character cap exists only in
the `persist_chat` variant (`extract_sources` in memory.py). -/

theorem extractSources_unparsable {jparse : String → Option PyVal} {s : String}
    (h : jparse s = Option.none) :
    extractSources jparse (.str s) = [] ∧ extract_sources_m jparse (.str s) = [] := by
  constructor <;> simp [extractSources, extract_sources_m, h]

theorem extractSources_dict_as_singleton (jparse : String → Option PyVal) (kvs : PyDict) :
    extractSources jparse (.dict kvs) =
      extractSources jparse (.list (.cons (.dict kvs) .nil)) := rfl

theorem extractItem_url_present {item : PyVal} {e : SrcEntry}
    (h : extractItem item = some e) :
    ∃ kvs, item = .dict kvs ∧ (dictFind kvs "url").isSome = true := by
  cases item with
  | dict kvs =>
    refine ⟨kvs, rfl, ?_⟩
    have h2 : (match dictFind kvs "url" with
      | some u =>
        some ({ url := u, title := (dictFind kvs "title").getD (PyVal.str "No Title"),
                content := clean_content ((dictFind kvs "content").getD (PyVal.str "")) }
          : SrcEntry)
      | Option.none => Option.none) = some e := h
    cases hu : dictFind kvs "url" with
    | none => rw [hu] at h2; cases h2
    | some u => rfl
  | str s => cases h
  | num n => cases h
  | bool b => cases h
  | none => cases h
  | list xs => cases h

theorem extractItemM_truncated {item : PyVal} {e : SrcEntry}
    (h : extractItemM item = some e) : e.content.length ≤ 500 := by
  cases item with
  | dict kvs =>
    have h2 : (match dictFind kvs "url" with
      | some u =>
        some ({ url := u, title := (dictFind kvs "title").getD (PyVal.str "No Title"),
                content := pyTake (clean_content ((dictFind kvs "content").getD
                  (PyVal.str ""))) 500 } : SrcEntry)
      | Option.none => Option.none) = some e := h
    cases hu : dictFind kvs "url" with
    | none => rw [hu] at h2; cases h2
    | some u =>
      rw [hu] at h2
      cases h2
      show (pyTake _ 500).length ≤ 500
      unfold pyTake
      show (List.take 500 _).length ≤ 500
      rw [List.length_take]
      exact Nat.min_le_left _ _
  | str s => cases h
  | num n => cases h
  | bool b => cases h
  | none => cases h
  | list xs => cases h

theorem extractSources_mem {jparse : String → Option PyVal} {items : PyList} {e : SrcEntry}
    (h : e ∈ extractSources jparse (.list items)) :
    ∃ item ∈ items.toList, extractItem item = some e := by
  unfold extractSources at h
  exact List.mem_filterMap.mp h

/-- C8 (amended): source extraction parses string payloads as JSON, an
unparsable payload yields the empty list in both variants, a single mapping
is treated as a one-element list by the primary path, every produced entry
comes from a dict item with a present `url` key, and only the `persist_chat`
variant truncates content to 500 characters (the primary path keeps the full
cleaned content, per the counterexample). -/
theorem c8_source_extraction :
    (∀ (jparse : String → Option PyVal) (s : String), jparse s = Option.none →
      extractSources jparse (.str s) = [] ∧ extract_sources_m jparse (.str s) = []) ∧
    (∀ (jparse : String → Option PyVal) (kvs : PyDict),
      extractSources jparse (.dict kvs) =
        extractSources jparse (.list (.cons (.dict kvs) .nil))) ∧
    (∀ (jparse : String → Option PyVal) (items : PyList) (e : SrcEntry),
      e ∈ extractSources jparse (.list items) →
      ∃ item ∈ items.toList, extractItem item = some e) ∧
    (∀ (item : PyVal) (e : SrcEntry), extractItem item = some e →
      ∃ kvs, item = .dict kvs ∧ (dictFind kvs "url").isSome = true) ∧
    (∀ (item : PyVal) (e : SrcEntry), extractItemM item = some e →
      e.content.length ≤ 500) :=
  ⟨fun _ _ h => extractSources_unparsable h,
   fun jp kvs => extractSources_dict_as_singleton jp kvs,
   fun _ _ _ h => extractSources_mem h,
   fun _ _ h => extractItem_url_present h,
   fun _ _ h => extractItemM_truncated h⟩

/-- A one-source dict item with an empty content field. -/
def exItemW : PyVal := .dict (.cons "url" (.str "https://x") .nil)

/-- C8 (witness): the conjuncts applied at concrete inputs — a failing parse
yields `[]`, the dict payload equals its one-element-list form, the single
extracted entry traces back to its item, that item exposes a `url` key, and
the truncating variant's entry is within 500 characters. -/
theorem c8_witness :
    (extractSources jparseNone (.str "not json") = [] ∧
     extract_sources_m jparseNone (.str "not json") = []) ∧
    extractSources jparseNone (.dict (.cons "url" (.str "https://x") .nil)) =
      extractSources jparseNone (.list (.cons exItemW .nil)) ∧
    (∃ item ∈ (PyList.cons exItemW .nil).toList,
      extractItem item = some { url := .str "https://x", title := .str "No Title",
                                content := "" }) ∧
    (∃ kvs, exItemW = .dict kvs ∧ (dictFind kvs "url").isSome = true) ∧
    ({ url := .str "https://x", title := .str "No Title", content := "" }
        : SrcEntry).content.length ≤ 500 :=
  ⟨c8_source_extraction.1 jparseNone "not json" rfl,
   c8_source_extraction.2.1 jparseNone (.cons "url" (.str "https://x") .nil),
   c8_source_extraction.2.2.1 jparseNone (.cons exItemW .nil)
     { url := .str "https://x", title := .str "No Title", content := "" } (by decide),
   c8_source_extraction.2.2.2.1 exItemW
     { url := .str "https://x", title := .str "No Title", content := "" } (by decide),
   c8_source_extraction.2.2.2.2 exItemW
     { url := .str "https://x", title := .str "No Title", content := "" } (by decide)⟩

/-! ## C10 — colliding deterministic ids deduplicate in persist_chat -/

theorem find?_append_some {α} {p : α → Bool} {l1 : List α} {a : α}
    (h : l1.find? p = some a) (l2 : List α) : (l1 ++ l2).find? p = some a := by
  induction l1 with
  | nil => cases h
  | cons x xs ih =>
    rw [List.cons_append]
    cases hp : p x with
    | true =>
      rw [List.find?_cons, hp] at h
      rw [List.find?_cons, hp]
      exact h
    | false =>
      rw [List.find?_cons, hp] at h
      rw [List.find?_cons, hp]
      exact ih h

theorem findNode_mergeEdge (g : Graph) (e : Edge) (r : Ref) :
    findNode (mergeEdge g e) r = findNode g r := by
  unfold findNode; rw [mergeEdge_nodes]

theorem findNode_mergeNode_of_some {g : Graph} {r : Ref} {n : Node}
    (h : findNode g r = some n) (x : Node) : findNode (mergeNode g x) r = some n := by
  unfold mergeNode; split
  · exact h
  · exact find?_append_some h [x]

theorem hasNode_of_findNode {g : Graph} {r : Ref} {n : Node}
    (h : findNode g r = some n) : hasNode g r = true := by
  unfold findNode at h
  unfold hasNode
  rw [List.any_eq_true]
  refine ⟨n, List.mem_of_find?_eq_some h, ?_⟩
  have hp := List.find?_some h
  exact hp

theorem findNode_mergeUserThread {g : Graph} {r : Ref} {n : Node} (uid tid : String)
    (h : findNode g r = some n) : findNode (mergeUserThread uid tid g) r = some n := by
  unfold mergeUserThread
  rw [findNode_mergeEdge]
  exact findNode_mergeNode_of_some (findNode_mergeNode_of_some h _) _

/-- C10: two turns of the same thread with equal index and role whose
normalized contents agree on the first 50 characters get the same generated
id; therefore re-persisting the second turn `MERGE`-matches the node stored
for the first: the query succeeds, the stored node (its content included) is
unchanged, and no additional Message node is created. -/
theorem c10_colliding_ids (md5hex : String → String) (uid tid : String) (idx : Nat)
    (role c1 c2 : String) (g : Graph) (n : Node)
    (h50 : pyTake c1 50 = pyTake c2 50)
    (hn : findNode g (NKind.message, generate_message_id md5hex tid idx role c1) = some n) :
    generate_message_id md5hex tid idx role c1 = generate_message_id md5hex tid idx role c2 ∧
    persistChatQuery uid tid
        [{ id := generate_message_id md5hex tid idx role c2, index := idx, role := role,
           content := c2, sources := [] }] g =
      .ok (mergeEdge (mergeUserThread uid tid g)
            ⟨.hasMessage, (NKind.thread, tid),
             (NKind.message, generate_message_id md5hex tid idx role c2)⟩) ∧
    findNode (mergeEdge (mergeUserThread uid tid g)
        ⟨.hasMessage, (NKind.thread, tid),
         (NKind.message, generate_message_id md5hex tid idx role c2)⟩)
      (NKind.message, generate_message_id md5hex tid idx role c1) = some n ∧
    ((mergeEdge (mergeUserThread uid tid g)
        ⟨.hasMessage, (NKind.thread, tid),
         (NKind.message, generate_message_id md5hex tid idx role c2)⟩).nodes.filter
      (fun x => x.kind == NKind.message)).length =
      (g.nodes.filter (fun x => x.kind == NKind.message)).length := by
  have hid : generate_message_id md5hex tid idx role c1 =
      generate_message_id md5hex tid idx role c2 := by
    unfold generate_message_id; rw [h50]
  have hfind1 : findNode (mergeUserThread uid tid g)
      (NKind.message, generate_message_id md5hex tid idx role c1) = some n :=
    findNode_mergeUserThread uid tid hn
  have hmerge : mergeNode (mergeUserThread uid tid g)
      { kind := .message, key := generate_message_id md5hex tid idx role c2,
        role := some role, content := some c2, index := some idx } =
      mergeUserThread uid tid g := by
    apply mergeNode_of_hasNode
    show hasNode _ (NKind.message, generate_message_id md5hex tid idx role c2) = true
    rw [← hid]
    exact hasNode_of_findNode hfind1
  refine ⟨hid, ?_, ?_, ?_⟩
  · show persistMsgs tid (mergeUserThread uid tid g) [_] = _
    rw [persistMsgs]
    have hstep : persistMsgStep tid (mergeUserThread uid tid g)
        { id := generate_message_id md5hex tid idx role c2, index := idx, role := role,
          content := c2, sources := [] } =
        .ok (mergeEdge (mergeUserThread uid tid g)
          ⟨.hasMessage, (NKind.thread, tid),
           (NKind.message, generate_message_id md5hex tid idx role c2)⟩) := by
      unfold persistMsgStep
      rw [hmerge]
      rfl
    rw [hstep]
    rfl
  · rw [findNode_mergeEdge]
    exact hfind1
  · rw [mergeEdge_nodes]
    unfold mergeUserThread
    rw [mergeEdge_nodes, filter_nodes_mergeNode rfl, filter_nodes_mergeNode rfl]

/-- Contents that agree exactly on their first 50 characters. -/
def exC1 : String := String.mk (List.replicate 50 'a') ++ "x"

def exC2 : String := String.mk (List.replicate 50 'a') ++ "y"

/-- An md5 stand-in (the theorem holds for every digest function). -/
def exIdFn : String → String := fun s => s

def exNodeC10 : Node :=
  { kind := .message, key := generate_message_id exIdFn "t" 0 "user" exC1,
    role := some "user", content := some exC1, index := some 0 }

def exPersistGraph : Graph := { nodes := [exNodeC10], edges := [] }

/-- C10 (witness): the theorem applied to two 51-character contents differing
only in their last character, against a store already holding the first
turn's node. -/
theorem c10_witness :
    generate_message_id exIdFn "t" 0 "user" exC1 =
      generate_message_id exIdFn "t" 0 "user" exC2 ∧
    findNode (mergeEdge (mergeUserThread "u" "t" exPersistGraph)
        ⟨.hasMessage, (NKind.thread, "t"),
         (NKind.message, generate_message_id exIdFn "t" 0 "user" exC2)⟩)
      (NKind.message, generate_message_id exIdFn "t" 0 "user" exC1) = some exNodeC10 :=
  ⟨(c10_colliding_ids exIdFn "u" "t" 0 "user" exC1 exC2 exPersistGraph exNodeC10
      (by decide) (by decide)).1,
   (c10_colliding_ids exIdFn "u" "t" 0 "user" exC1 exC2 exPersistGraph exNodeC10
      (by decide) (by decide)).2.2.1⟩

/-! ## C4 — amended maintenance convergence

The straggler-recovery property holds for Message nodes: Phase A's predicate
selects exactly the Message nodes with content and no embedding, regardless
of how they were created, and Phase B touches only Chunk nodes and edges, so
after a completed run every Message with non-null content has an embedding. -/

/-- A message node that needs no (further) embedding work. -/
def GoodMsg (n : Node) : Prop :=
  n.kind = NKind.message → n.content.isSome → n.embedding.isSome

theorem GoodMsg_all_mergeNode {g : Graph} {x : Node}
    (hg : ∀ n ∈ g.nodes, GoodMsg n) (hx : GoodMsg x) :
    ∀ n ∈ (mergeNode g x).nodes, GoodMsg n := by
  unfold mergeNode; split
  · exact hg
  · intro n hn
    rcases List.mem_append.mp hn with h | h
    · exact hg n h
    · rw [List.mem_singleton.mp h]; exact hx

theorem GoodMsg_all_mergeEdge {g : Graph} {e : Edge}
    (hg : ∀ n ∈ g.nodes, GoodMsg n) :
    ∀ n ∈ (mergeEdge g e).nodes, GoodMsg n := by
  rw [mergeEdge_nodes]; exact hg

theorem GoodMsg_all_setVector {g : Graph} (k : NKind) (id : String) (v : List Int)
    (hg : ∀ n ∈ g.nodes, GoodMsg n) :
    ∀ n ∈ (setVector k id v g).nodes, GoodMsg n := by
  intro n' hn'
  obtain ⟨n, hn, hf⟩ := List.mem_map.mp hn'
  rw [← hf]
  split
  · intro _ _; rfl
  · exact hg n hn

theorem GoodMsg_all_writeVectorBatch (k : NKind) :
    ∀ (recs : List (String × List Int)) (g : Graph),
      (∀ n ∈ g.nodes, GoodMsg n) →
      ∀ n ∈ (writeVectorBatch k g recs).nodes, GoodMsg n := by
  intro recs
  induction recs with
  | nil => intro g hg; exact hg
  | cons r rest ih =>
    intro g hg
    rw [writeVectorBatch]
    exact ih _ (GoodMsg_all_setVector k r.1 r.2 hg)

theorem GoodMsg_chunkNode {n : Node} (h : n.kind = NKind.chunk) : GoodMsg n := by
  intro hk
  rw [h] at hk
  cases hk

theorem GoodMsg_all_writeChunksPairs (url : String) :
    ∀ (ps : List ((Nat × String) × (Nat × String))) (g : Graph),
      (∀ n ∈ g.nodes, GoodMsg n) →
      ∀ n ∈ (writeChunksPairs url g ps).nodes, GoodMsg n := by
  intro ps
  induction ps with
  | nil => intro g hg; exact hg
  | cons p rest ih =>
    intro g hg
    rw [writeChunksPairs]
    split
    · exact ih _ (GoodMsg_all_mergeEdge (GoodMsg_all_mergeNode hg (GoodMsg_chunkNode rfl)))
    · exact ih _ hg

theorem GoodMsg_all_writeChunks (url : String) (chunks : List (Nat × String)) {g : Graph}
    (hg : ∀ n ∈ g.nodes, GoodMsg n) :
    ∀ n ∈ (writeChunks url chunks g).nodes, GoodMsg n := by
  unfold writeChunks
  split
  · exact GoodMsg_all_writeChunksPairs url _ _
      (GoodMsg_all_mergeEdge (GoodMsg_all_mergeNode hg (GoodMsg_chunkNode rfl)))
  · exact hg

theorem GoodMsg_all_chunkAndStoreSource (emb : String → List Int)
    (split : String → List String) (url text : String) {g : Graph}
    (hg : ∀ n ∈ g.nodes, GoodMsg n) :
    ∀ n ∈ (chunkAndStoreSource emb split url text g).nodes, GoodMsg n := by
  unfold chunkAndStoreSource
  split
  · exact hg
  · exact GoodMsg_all_writeVectorBatch NKind.chunk _ _ (GoodMsg_all_writeChunks _ _ hg)

theorem GoodMsg_all_processSourcesList (emb : String → List Int)
    (split : String → List String) :
    ∀ (srcs : List (String × String)) (g : Graph),
      (∀ n ∈ g.nodes, GoodMsg n) →
      ∀ n ∈ (processSourcesList emb split g srcs).nodes, GoodMsg n := by
  intro srcs
  induction srcs with
  | nil => intro g hg; exact hg
  | cons s rest ih =>
    intro g hg
    rw [processSourcesList]
    exact ih _ (GoodMsg_all_chunkAndStoreSource emb split s.1 s.2 hg)

/-- Phase A fixes every listed message and leaves the rest good. -/
theorem writeVectorBatch_fixes :
    ∀ (recs : List (String × List Int)) (g : Graph),
      (∀ n ∈ g.nodes, GoodMsg n ∨ ∃ r ∈ recs, n.kind = NKind.message ∧ n.key = r.1) →
      ∀ n ∈ (writeVectorBatch NKind.message g recs).nodes, GoodMsg n := by
  intro recs
  induction recs with
  | nil =>
    intro g hg n hn
    rcases hg n hn with hgood | ⟨r, hr, _⟩
    · exact hgood
    · cases hr
  | cons rec rest ih =>
    intro g hg
    rw [writeVectorBatch]
    apply ih
    intro n' hn'
    obtain ⟨n, hn, hf⟩ := List.mem_map.mp hn'
    rcases hg n hn with hgood | ⟨r, hr, hkk⟩
    · left
      rw [← hf]
      split
      · intro _ _; rfl
      · exact hgood
    · rcases List.mem_cons.mp hr with hr0 | hrrest
      · left
        rw [hr0] at hkk
        have hcond : (n.kind == NKind.message && n.key == rec.1) = true := by
          rw [Bool.and_eq_true, beq_iff_eq, beq_iff_eq]
          exact ⟨hkk.1, hkk.2⟩
        rw [← hf, if_pos hcond]
        intro _ _; rfl
      · right
        refine ⟨r, hrrest, ?_⟩
        rw [← hf]
        split
        · exact hkk
        · exact hkk

/-- The fetch predicate covers every message that is not yet good. -/
theorem fetch_covers (emb : String → List Int) (g : Graph) :
    ∀ n ∈ g.nodes, GoodMsg n ∨
      ∃ r ∈ (fetchUnembeddedMessages g).map (fun r => (r.1, emb r.2)),
        n.kind = NKind.message ∧ n.key = r.1 := by
  intro n hn
  by_cases hk : n.kind = NKind.message
  · by_cases hc : n.content.isSome
    · by_cases he : n.embedding.isSome
      · exact Or.inl (fun _ _ => he)
      · right
        obtain ⟨c, hc'⟩ := Option.isSome_iff_exists.mp hc
        refine ⟨(n.key, emb c), ?_, hk, rfl⟩
        rw [List.mem_map]
        refine ⟨(n.key, c), ?_, rfl⟩
        unfold fetchUnembeddedMessages
        rw [List.mem_filterMap]
        refine ⟨n, hn, ?_⟩
        have hcond : (n.kind == NKind.message && n.embedding.isNone && n.content.isSome)
            = true := by
          rw [Bool.and_eq_true, Bool.and_eq_true, beq_iff_eq]
          exact ⟨⟨hk, Option.not_isSome_iff_eq_none.mp he ▸ rfl⟩, hc⟩
        rw [if_pos hcond, hc']
        rfl
    · exact Or.inl (fun _ hc' => absurd hc' hc)
  · exact Or.inl (fun hk' _ => absurd hk' hk)

/-- C4 (amended): after a completed maintenance run, every Message node with
non-null content has a non-null embedding — the needs-embedding predicate
selects unembedded Message nodes regardless of how they were created, and
Phase B only adds Chunk nodes and edges. -/
theorem c4_messages_converge (emb : String → List Int) (split : String → List String)
    (g : Graph) :
    ∀ n ∈ (process_pending_nodes emb split g).nodes,
      n.kind = NKind.message → n.content.isSome → n.embedding.isSome := by
  intro n hn
  have hn' : n ∈ (processSourcesList emb split
      (writeVectorBatch NKind.message g
        ((fetchUnembeddedMessages g).map (fun r => (r.1, emb r.2))))
      (fetchUnprocessedSources (writeVectorBatch NKind.message g
        ((fetchUnembeddedMessages g).map (fun r => (r.1, emb r.2)))))).nodes := hn
  exact GoodMsg_all_processSourcesList emb split _ _
    (writeVectorBatch_fixes _ g (fetch_covers emb g)) n hn'

/-- The message node of `exThreadGraph` after the maintenance run. -/
def exMsgNodeAfter : Node :=
  { kind := .message, key := "m0", role := some "user", content := some "q",
    index := some 0, embedding := some [1], embeddedAt := true }

/-- C4 (witness): the convergence theorem applied to the concrete store with
one unembedded message, at the node the run produced. -/
theorem c4_witness : exMsgNodeAfter.embedding.isSome :=
  c4_messages_converge embOne splitOne exThreadGraph exMsgNodeAfter
    (by decide) (by decide) (by decide)

/-! ## Shared inversion and postcondition lemmas for the pairwise pass -/

theorem hasNode_mergeNode_self (g : Graph) (n : Node) :
    hasNode (mergeNode g n) (n.kind, n.key) = true :=
  hasNode_iff.mpr (mergeNode_mem_self g n)

theorem hasNode_congr_nodes {g g' : Graph} (h : g'.nodes = g.nodes) (r : Ref) :
    hasNode g' r = hasNode g r := by
  unfold hasNode; rw [h]

theorem pairToolLink_nodes (g : Graph) (mRef : Ref) (m0 : SMsg) :
    (pairToolLink g mRef m0).nodes = g.nodes := by
  unfold pairToolLink
  split
  · rfl
  · split
    · rw [addSourcedEdges_nodes, mergeEdge_nodes]
    · rfl

theorem pairChainAppend_nodes (tid : String) (g : Graph) (mRef : Ref) :
    (pairChainAppend tid g mRef).nodes = g.nodes := by
  unfold pairChainAppend
  split
  · rfl
  · rw [mergeEdge_nodes]

theorem processPairs_single {tid : String} {g g' : Graph} {p : SMsg × SMsg}
    (h : processPairs tid g [p] = .ok g') : processPair tid g p.1 p.2 = .ok g' := by
  rw [processPairs] at h
  cases hp : processPair tid g p.1 p.2 with
  | error e => rw [hp] at h; cases h
  | ok g1 =>
    rw [hp] at h
    cases h
    rfl

theorem processPairs_append {tid : String} :
    ∀ (l1 l2 : List (SMsg × SMsg)) (g g' : Graph),
      processPairs tid g (l1 ++ l2) = .ok g' →
      ∃ gm, processPairs tid g l1 = .ok gm ∧ processPairs tid gm l2 = .ok g' := by
  intro l1
  induction l1 with
  | nil => intro l2 g g' h; exact ⟨g, rfl, h⟩
  | cons p rest ih =>
    intro l2 g g' h
    rw [List.cons_append, processPairs] at h
    cases hp : processPair tid g p.1 p.2 with
    | error e => rw [hp] at h; cases h
    | ok g1 =>
      rw [hp] at h
      obtain ⟨gm, h1, h2⟩ := ih l2 g1 g' h
      refine ⟨gm, ?_, h2⟩
      rw [processPairs, hp]
      exact h1

theorem mergeConversationTurn_parts {uid tid : String} {msgs : List SMsg} {g g' : Graph}
    (h : mergeConversationTurn uid tid msgs g = .ok g') :
    ∃ gF, processFirstBlock tid msgs (mergeUserThread uid tid g) = .ok gF ∧
      processPairs tid gF (pairsOf msgs) = .ok g' := by
  unfold mergeConversationTurn at h
  cases hf : processFirstBlock tid msgs (mergeUserThread uid tid g) with
  | error e => rw [hf] at h; cases h
  | ok gF => rw [hf] at h; exact ⟨gF, rfl, h⟩

theorem pairsOf_cons_cons (x y : SMsg) (l : List SMsg) :
    pairsOf (x :: y :: l) = (x, y) :: pairsOf (y :: l) := rfl

theorem pairsOf_append2 : ∀ (xs : List SMsg) (a b : SMsg),
    pairsOf (xs ++ [a, b]) = pairsOf (xs ++ [a]) ++ [(a, b)] := by
  intro xs
  induction xs with
  | nil => intro a b; rfl
  | cons x xs ih =>
    intro a b
    cases xs with
    | nil => rfl
    | cons y ys =>
      show (x, y) :: pairsOf ((y :: ys) ++ [a, b]) =
        ((x, y) :: pairsOf ((y :: ys) ++ [a])) ++ [(a, b)]
      rw [ih]
      rfl

theorem pairsOf_append1 : ∀ (xs : List SMsg), xs ≠ [] → ∀ (a : SMsg),
    ∃ last, pairsOf (xs ++ [a]) = pairsOf xs ++ [(last, a)] := by
  intro xs
  induction xs with
  | nil => intro h; exact absurd rfl h
  | cons x xs ih =>
    intro _ a
    cases xs with
    | nil => exact ⟨x, rfl⟩
    | cons y ys =>
      obtain ⟨last, hl⟩ := ih (by intro hc; cases hc) a
      refine ⟨last, ?_⟩
      show (x, y) :: pairsOf ((y :: ys) ++ [a]) =
        ((x, y) :: pairsOf (y :: ys)) ++ [(last, a)]
      rw [hl]
      rfl

/-- `mergeSources` postcondition: each listed source entry has a valid merge
key, its Source node exists afterwards, and its `RETRIEVED` edge exists. -/
theorem mergeSources_post (o : Ref) : ∀ (l : List SrcEntry) (g g' : Graph),
    mergeSources o g l = .ok g' →
    ∀ s ∈ l, ∃ u, mergeKey s.url = .ok u ∧ hasNode g' (NKind.source, u) = true ∧
      (⟨.retrieved, o, (NKind.source, u)⟩ : Edge) ∈ g'.edges := by
  intro l
  induction l with
  | nil => intro g g' _ s hs; cases hs
  | cons s0 rest ih =>
    intro g g' h s hs
    rw [mergeSources] at h
    cases hu : mergeKey s0.url with
    | error e => rw [hu] at h; cases h
    | ok u0 =>
      rw [hu] at h
      rcases List.mem_cons.mp hs with hs0 | hsr
      · subst hs0
        have hsub := mergeSources_ok_sub o rest _ _ h
        refine ⟨u0, hu, ?_, ?_⟩
        · apply hasNode_of_sub hsub.1
          rw [hasNode_congr_nodes (mergeEdge_nodes _ _) _]
          exact hasNode_mergeNode_self _ _
        · exact hsub.2 (mergeEdge_mem_self _ _)
      · exact ih _ _ h s hsr

/-- Tool-branch postcondition of a pair row. -/
theorem processPair_tool_post {tid : String} {g g' : Graph} {m0 m1 : SMsg} {T : String}
    (hrole : m1.role = "tool") (hid : m1.id = some T)
    (h : processPair tid g m0 m1 = .ok g') :
    hasNode g' (NKind.toolCall, T) = true ∧
    ∀ s ∈ m1.sources.getD [], ∃ u, mergeKey s.url = .ok u ∧
      (⟨.retrieved, (NKind.toolCall, T), (NKind.source, u)⟩ : Edge) ∈ g'.edges := by
  unfold processPair at h
  rw [if_pos (by rw [hrole]; rfl)] at h
  rw [hid] at h
  have h' : mergeSources (NKind.toolCall, T)
      (mergeNode g (msgNodeOf .toolCall T m1)) (m1.sources.getD []) = .ok g' := h
  constructor
  · apply hasNode_of_sub (mergeSources_ok_sub _ _ _ _ h').1
    exact hasNode_mergeNode_self _ _
  · intro s hs
    obtain ⟨u, hu, _, hedge⟩ := mergeSources_post _ _ _ _ h' s hs
    exact ⟨u, hu, hedge⟩

theorem pairToolLink_eq_of_has (mRef : Ref) {g : Graph} {m0 : SMsg} {T : String}
    (hidt : m0.id = some T) (htc : hasNode g (NKind.toolCall, T) = true) :
    pairToolLink g mRef m0 =
      addSourcedEdges mRef (mergeEdge g ⟨.triggered, mRef, (NKind.toolCall, T)⟩)
        (retrievedSourcesOf (mergeEdge g ⟨.triggered, mRef, (NKind.toolCall, T)⟩)
          (NKind.toolCall, T)) := by
  unfold pairToolLink
  rw [hidt]
  show (if hasNode g (NKind.toolCall, T) = true then
      addSourcedEdges mRef (mergeEdge g ⟨.triggered, mRef, (NKind.toolCall, T)⟩)
        (retrievedSourcesOf (mergeEdge g ⟨.triggered, mRef, (NKind.toolCall, T)⟩)
          (NKind.toolCall, T))
    else g) = _
  rw [if_pos htc]

theorem addSourcedEdges_adds (mRef : Ref) : ∀ (l : List Ref) (g : Graph) (x : Ref),
    x ∈ l → (⟨.sourced, mRef, x⟩ : Edge) ∈ (addSourcedEdges mRef g l).edges := by
  intro l
  induction l with
  | nil => intro g x hx; cases hx
  | cons y rest ih =>
    intro g x hx
    rcases List.mem_cons.mp hx with hx0 | hxr
    · subst hx0
      rw [addSourcedEdges]
      exact (GSub_addSourcedEdges mRef rest _).2 (mergeEdge_mem_self _ _)
    · rw [addSourcedEdges]
      exact ih _ x hxr

theorem retrievedSourcesOf_mem {g : Graph} {tcRef : Ref} {u : String}
    (h : (⟨.retrieved, tcRef, (NKind.source, u)⟩ : Edge) ∈ g.edges) :
    (NKind.source, u) ∈ retrievedSourcesOf g tcRef := by
  unfold retrievedSourcesOf
  rw [List.mem_filterMap]
  refine ⟨_, h, ?_⟩
  simp

/-- Reply-branch postcondition of a pair row: with `msg_0`'s ToolCall present
the reply gets its `TRIGGERED` edge and a `SOURCED` edge per `RETRIEVED`
source of that ToolCall. -/
theorem processPair_reply_post {tid : String} {g g' : Graph} {m0 m1 : SMsg} {T R : String}
    (hrole : m1.role ≠ "tool") (hidr : m1.id = some R) (hidt : m0.id = some T)
    (htc : hasNode g (NKind.toolCall, T) = true)
    (h : processPair tid g m0 m1 = .ok g') :
    (⟨.triggered, (NKind.message, R), (NKind.toolCall, T)⟩ : Edge) ∈ g'.edges ∧
    ∀ u, (⟨.retrieved, (NKind.toolCall, T), (NKind.source, u)⟩ : Edge) ∈ g.edges →
      (⟨.sourced, (NKind.message, R), (NKind.source, u)⟩ : Edge) ∈ g'.edges := by
  unfold processPair at h
  rw [if_neg (by rw [beq_iff_eq]; exact hrole)] at h
  rw [hidr] at h
  have h' : (Except.ok
      (pairChainAppend tid
        (pairToolLink (mergeNode g (msgNodeOf .message R m1)) (NKind.message, R) m0)
        (NKind.message, R)) : Except String Graph) = .ok g' := h
  cases h'
  set gN := mergeNode g (msgNodeOf .message R m1) with hgN
  have htcN : hasNode gN (NKind.toolCall, T) = true :=
    hasNode_of_sub (GSub_mergeNode g _).1 htc
  have hlink := pairToolLink_eq_of_has (NKind.message, R) hidt htcN
  constructor
  · apply (GSub_pairChainAppend tid _ _).2
    rw [hlink]
    apply (GSub_addSourcedEdges _ _ _).2
    exact mergeEdge_mem_self _ _
  · intro u hu
    apply (GSub_pairChainAppend tid _ _).2
    rw [hlink]
    apply addSourcedEdges_adds
    apply retrievedSourcesOf_mem
    exact (GSub_mergeEdge _ _).2 ((GSub_mergeNode g _).2 hu)

/-! ## C3 — the NEXT chain never touches a ToolCall node

`NoToolChain` says no `NEXT` edge has a ToolCall endpoint and no thread-level
`FIRST` edge points at a ToolCall.  Every write of `MERGE_CONVERSATION_TURN`
preserves it: tool rows add only `RETRIEVED` edges, reply rows add
`TRIGGERED`/`SOURCED` edges and one `NEXT` edge whose target is the merged
`:Message` and whose source is a chain-tail, i.e. a `FIRST` target or a
`NEXT` target, which the invariant keeps away from ToolCall nodes. -/

def NoToolChain (g : Graph) : Prop :=
  (∀ e ∈ g.edges, e.typ = EType.next →
    e.src.1 ≠ NKind.toolCall ∧ e.dst.1 ≠ NKind.toolCall) ∧
  (∀ e ∈ g.edges, e.typ = EType.first → e.src.1 = NKind.thread →
    e.dst.1 ≠ NKind.toolCall)

theorem mem_mergeEdge_cases {g : Graph} {e e' : Edge}
    (h : e' ∈ (mergeEdge g e).edges) : e' ∈ g.edges ∨ e' = e := by
  unfold mergeEdge at h
  split at h
  · exact Or.inl h
  · rcases List.mem_append.mp h with h1 | h1
    · exact Or.inl h1
    · exact Or.inr (List.mem_singleton.mp h1)

theorem NoToolChain_of_cases {g g' : Graph} (hinv : NoToolChain g)
    (hcases : ∀ e ∈ g'.edges, e ∈ g.edges ∨
      (e.typ ≠ EType.next ∧ e.typ ≠ EType.first)) : NoToolChain g' := by
  constructor
  · intro e he ht
    rcases hcases e he with h1 | h1
    · exact hinv.1 e h1 ht
    · exact absurd ht h1.1
  · intro e he ht hs
    rcases hcases e he with h1 | h1
    · exact hinv.2 e h1 ht hs
    · exact absurd ht h1.2

theorem mem_addSourcedEdges_cases (mRef : Ref) : ∀ (l : List Ref) (g : Graph) (e : Edge),
    e ∈ (addSourcedEdges mRef g l).edges → e ∈ g.edges ∨ e.typ = EType.sourced := by
  intro l
  induction l with
  | nil => intro g e h; exact Or.inl h
  | cons x rest ih =>
    intro g e h
    rw [addSourcedEdges] at h
    rcases ih _ e h with h1 | h1
    · rcases mem_mergeEdge_cases h1 with h2 | h2
      · exact Or.inl h2
      · exact Or.inr (by rw [h2])
    · exact Or.inr h1

theorem mem_mergeSources_cases (o : Ref) : ∀ (l : List SrcEntry) (g g' : Graph),
    mergeSources o g l = .ok g' → ∀ e ∈ g'.edges,
      e ∈ g.edges ∨ e.typ = EType.retrieved := by
  intro l
  induction l with
  | nil => intro g g' h e he; cases h; exact Or.inl he
  | cons s rest ih =>
    intro g g' h e he
    rw [mergeSources] at h
    cases hu : mergeKey s.url with
    | error er => rw [hu] at h; cases h
    | ok u =>
      rw [hu] at h
      rcases ih _ _ h e he with h1 | h1
      · rcases mem_mergeEdge_cases h1 with h2 | h2
        · rw [mergeNode_edges] at h2
          exact Or.inl h2
        · exact Or.inr (by rw [h2])
      · exact Or.inr h1

theorem mem_pairToolLink_cases {g : Graph} {mRef : Ref} {m0 : SMsg} {e : Edge}
    (h : e ∈ (pairToolLink g mRef m0).edges) :
    e ∈ g.edges ∨ e.typ = EType.triggered ∨ e.typ = EType.sourced := by
  unfold pairToolLink at h
  split at h
  · exact Or.inl h
  · split at h
    · rcases mem_addSourcedEdges_cases _ _ _ _ h with h1 | h1
      · rcases mem_mergeEdge_cases h1 with h2 | h2
        · exact Or.inl h2
        · exact Or.inr (Or.inl (by rw [h2]))
      · exact Or.inr (Or.inr h1)
    · exact Or.inl h

theorem trailEnds_end_cases (g : Graph) : ∀ (fuel : Nat) (used : List Edge) (cur : Ref)
    (p : Nat × Ref), p ∈ trailEnds g used cur fuel →
    p.2 = cur ∨ ∃ e ∈ g.edges, e.typ = EType.next ∧ p.2 = e.dst := by
  intro fuel
  induction fuel with
  | zero =>
    intro used cur p h
    rw [trailEnds] at h
    rw [List.mem_singleton.mp h]
    exact Or.inl rfl
  | succ n ih =>
    intro used cur p h
    rw [trailEnds] at h
    cases hf : g.edges.filter
        (fun e => e.typ == EType.next && e.src == cur && !(used.contains e)) with
    | nil =>
      rw [hf] at h
      rw [List.mem_singleton.mp h]
      exact Or.inl rfl
    | cons e0 outs =>
      rw [hf] at h
      obtain ⟨inner, hinner, hp⟩ := List.mem_flatten.mp h
      obtain ⟨e, he, hmap⟩ := List.mem_map.mp hinner
      rw [← hmap] at hp
      obtain ⟨q, hq, hpq⟩ := List.mem_map.mp hp
      have hemem : e ∈ g.edges.filter
          (fun e => e.typ == EType.next && e.src == cur && !(used.contains e)) := by
        rw [hf]; exact he
      have he' := List.mem_filter.mp hemem
      have htyp : e.typ = EType.next := by
        have := he'.2
        rw [Bool.and_eq_true, Bool.and_eq_true] at this
        exact beq_iff_eq.mp this.1.1
      rcases ih (e :: used) e.dst q hq with h1 | h1
      · right
        exact ⟨e, he'.1, htyp, by rw [← hpq]; exact h1⟩
      · right
        obtain ⟨e2, he2, ht2, hd2⟩ := h1
        exact ⟨e2, he2, ht2, by rw [← hpq]; exact hd2⟩

theorem pickLongest_mem : ∀ (l : List (Nat × Ref)) (p : Nat × Ref),
    pickLongest l = some p → p ∈ l := by
  have haux : ∀ (l : List (Nat × Ref)) (acc p : Nat × Ref),
      List.foldl (fun acc p =>
        match acc with
        | Option.none => some p
        | some q => if p.1 > q.1 then some p else some q) (some acc) l = some p →
      p = acc ∨ p ∈ l := by
    intro l
    induction l with
    | nil => intro acc p h; cases h; exact Or.inl rfl
    | cons x rest ih =>
      intro acc p h
      rw [List.foldl_cons] at h
      have h' : List.foldl (fun acc p =>
          match acc with
          | Option.none => some p
          | some q => if p.1 > q.1 then some p else some q)
          (if x.1 > acc.1 then some x else some acc) rest = some p := h
      by_cases hx : x.1 > acc.1
      · rw [if_pos hx] at h'
        rcases ih x p h' with h1 | h1
        · exact Or.inr (h1 ▸ List.mem_cons_self x rest)
        · exact Or.inr (List.mem_cons_of_mem _ h1)
      · rw [if_neg hx] at h'
        rcases ih acc p h' with h1 | h1
        · exact Or.inl h1
        · exact Or.inr (List.mem_cons_of_mem _ h1)
  intro l p h
  cases l with
  | nil => cases h
  | cons x rest =>
    unfold pickLongest at h
    rw [List.foldl_cons] at h
    rcases haux rest x p h with h1 | h1
    · exact h1 ▸ List.mem_cons_self x rest
    · exact List.mem_cons_of_mem _ h1

theorem chainTail_cases {g : Graph} {tid : String} {prev : Ref}
    (h : chainTail g tid = some prev) :
    (∃ e ∈ g.edges, e.typ = EType.first ∧ e.src = (NKind.thread, tid) ∧ prev = e.dst) ∨
    (∃ e ∈ g.edges, e.typ = EType.next ∧ prev = e.dst) := by
  unfold chainTail at h
  obtain ⟨p, hp, hprev⟩ := Option.map_eq_some'.mp h
  have hpmem := pickLongest_mem _ p hp
  obtain ⟨inner, hinner, hpin⟩ := List.mem_flatten.mp hpmem
  obtain ⟨e, he, hmap⟩ := List.mem_map.mp hinner
  rw [← hmap] at hpin
  obtain ⟨q, hq, hpq⟩ := List.mem_map.mp hpin
  have he' := List.mem_filter.mp he
  have htyp : e.typ = EType.first ∧ e.src = (NKind.thread, tid) := by
    have := he'.2
    rw [Bool.and_eq_true] at this
    exact ⟨beq_iff_eq.mp this.1, beq_iff_eq.mp this.2⟩
  rcases trailEnds_end_cases g _ [] e.dst q hq with h1 | h1
  · left
    refine ⟨e, he'.1, htyp.1, htyp.2, ?_⟩
    rw [← hprev, ← hpq]
    exact h1
  · right
    obtain ⟨e2, he2, ht2, hd2⟩ := h1
    refine ⟨e2, he2, ht2, ?_⟩
    rw [← hprev, ← hpq]
    exact hd2

theorem NoToolChain_pairChainAppend {tid : String} {g : Graph} (hinv : NoToolChain g)
    (mid : String) : NoToolChain (pairChainAppend tid g (NKind.message, mid)) := by
  unfold pairChainAppend
  cases hct : chainTail g tid with
  | none => exact hinv
  | some prev =>
    have hprev : prev.1 ≠ NKind.toolCall := by
      rcases chainTail_cases hct with ⟨e, he, ht, hs, hd⟩ | ⟨e, he, ht, hd⟩
      · rw [hd]
        exact hinv.2 e he ht (by rw [hs])
      · rw [hd]
        exact (hinv.1 e he ht).2
    constructor
    · intro e he ht
      rcases mem_mergeEdge_cases he with h1 | h1
      · exact hinv.1 e h1 ht
      · rw [h1]
        exact ⟨hprev, (by intro hc; cases hc)⟩
    · intro e he ht hs
      rcases mem_mergeEdge_cases he with h1 | h1
      · exact hinv.2 e h1 ht hs
      · rw [h1] at ht
        cases ht

theorem NoToolChain_processPair {tid : String} {g g' : Graph} {m0 m1 : SMsg}
    (h : processPair tid g m0 m1 = .ok g') (hinv : NoToolChain g) : NoToolChain g' := by
  unfold processPair at h
  split at h
  · cases hk : idKey m1.id with
    | error e => rw [hk] at h; cases h
    | ok mid =>
      rw [hk] at h
      apply NoToolChain_of_cases hinv
      intro e he
      rcases mem_mergeSources_cases _ _ _ _ h e he with h1 | h1
      · rw [mergeNode_edges] at h1
        exact Or.inl h1
      · exact Or.inr ⟨(by rw [h1]; intro hc; cases hc), (by rw [h1]; intro hc; cases hc)⟩
  · cases hk : idKey m1.id with
    | error e => rw [hk] at h; cases h
    | ok mid =>
      rw [hk] at h
      cases h
      apply NoToolChain_pairChainAppend
      apply NoToolChain_of_cases hinv
      intro e he
      rcases mem_pairToolLink_cases he with h1 | h1 | h1
      · rw [mergeNode_edges] at h1
        exact Or.inl h1
      · exact Or.inr ⟨(by rw [h1]; intro hc; cases hc), (by rw [h1]; intro hc; cases hc)⟩
      · exact Or.inr ⟨(by rw [h1]; intro hc; cases hc), (by rw [h1]; intro hc; cases hc)⟩

theorem NoToolChain_processPairs {tid : String} : ∀ (ps : List (SMsg × SMsg)) (g g' : Graph),
    processPairs tid g ps = .ok g' → NoToolChain g → NoToolChain g' := by
  intro ps
  induction ps with
  | nil => intro g g' h hinv; cases h; exact hinv
  | cons p rest ih =>
    intro g g' h hinv
    rw [processPairs] at h
    cases hp : processPair tid g p.1 p.2 with
    | error e => rw [hp] at h; cases h
    | ok g1 =>
      rw [hp] at h
      exact ih _ _ h (NoToolChain_processPair hp hinv)

theorem NoToolChain_processFirstBlock {tid : String} {msgs : List SMsg} {g g' : Graph}
    (h : processFirstBlock tid msgs g = .ok g') (hinv : NoToolChain g) : NoToolChain g' := by
  unfold processFirstBlock at h
  split at h
  · cases h; exact hinv
  · split at h
    · cases h
    · next m _ =>
      cases hk : idKey m.id with
      | error e => rw [hk] at h; cases h
      | ok mid =>
        rw [hk] at h
        cases h
        constructor
        · intro e he ht
          rcases mem_mergeEdge_cases he with h1 | h1
          · rw [mergeNode_edges] at h1
            exact hinv.1 e h1 ht
          · rw [h1] at ht
            cases ht
        · intro e he ht hs
          rcases mem_mergeEdge_cases he with h1 | h1
          · rw [mergeNode_edges] at h1
            exact hinv.2 e h1 ht hs
          · rw [h1]
            intro hc
            cases hc

theorem NoToolChain_mergeUserThread (uid tid : String) {g : Graph}
    (hinv : NoToolChain g) : NoToolChain (mergeUserThread uid tid g) := by
  apply NoToolChain_of_cases hinv
  intro e he
  unfold mergeUserThread at he
  rcases mem_mergeEdge_cases he with h1 | h1
  · rw [mergeNode_edges, mergeNode_edges] at h1
    exact Or.inl h1
  · exact Or.inr ⟨(by rw [h1]; intro hc; cases hc), (by rw [h1]; intro hc; cases hc)⟩

theorem NoToolChain_mergeConversationTurn {uid tid : String} {msgs : List SMsg}
    {g g' : Graph} (h : mergeConversationTurn uid tid msgs g = .ok g')
    (hinv : NoToolChain g) : NoToolChain g' := by
  obtain ⟨gF, hF, hP⟩ := mergeConversationTurn_parts h
  exact NoToolChain_processPairs _ _ _ hP
    (NoToolChain_processFirstBlock hF (NoToolChain_mergeUserThread uid tid hinv))

/-- C3: for every batch in which a tool-role turn with id `T` at position ≥ 1
(i.e. preceded by a non-empty prefix) is immediately followed by an assistant
turn with id `R`, a successful `MERGE_CONVERSATION_TURN` commits a graph in
which `R`'s `:Message` node has a `TRIGGERED` edge to the `:ToolCall` node of
`T` and a `SOURCED` edge to the `:Source` of every source entry of the tool
turn; and no `NEXT` edge (nor any thread-level `FIRST` edge) touches a
ToolCall node, provided none did before the call. -/
theorem c3_tool_linkage {uid tid : String} {pre : List SMsg} {tmsg rmsg : SMsg}
    {T R : String} {g g' : Graph}
    (hpre : pre ≠ [])
    (hrt : tmsg.role = "tool") (hra : rmsg.role = "assistant")
    (hidt : tmsg.id = some T) (hidr : rmsg.id = some R)
    (hrun : mergeConversationTurn uid tid (pre ++ [tmsg, rmsg]) g = .ok g') :
    (⟨.triggered, (NKind.message, R), (NKind.toolCall, T)⟩ : Edge) ∈ g'.edges ∧
    (∀ s ∈ tmsg.sources.getD [], ∃ u, mergeKey s.url = .ok u ∧
      (⟨.sourced, (NKind.message, R), (NKind.source, u)⟩ : Edge) ∈ g'.edges) ∧
    (NoToolChain g → NoToolChain g') := by
  obtain ⟨gF, hF, hP⟩ := mergeConversationTurn_parts hrun
  rw [pairsOf_append2] at hP
  obtain ⟨gm, hP1, hP2⟩ := processPairs_append _ _ _ _ hP
  obtain ⟨last, hpl⟩ := pairsOf_append1 pre hpre tmsg
  rw [hpl] at hP1
  obtain ⟨gm0, hQ1, hQ2⟩ := processPairs_append _ _ _ _ hP1
  have hQ2' := processPairs_single hQ2
  have htool := processPair_tool_post hrt hidt hQ2'
  have hP2' := processPairs_single hP2
  have hrner : rmsg.role ≠ "tool" := by rw [hra]; decide
  have hreply := processPair_reply_post hrner hidr hidt htool.1 hP2'
  refine ⟨hreply.1, ?_, ?_⟩
  · intro s hs
    obtain ⟨u, hu, hret⟩ := htool.2 s hs
    exact ⟨u, hu, hreply.2 u hret⟩
  · intro hinv
    exact NoToolChain_mergeConversationTurn hrun hinv

/-- The graph committed by running the turn on
`[user m0, tool tc1 (source https://x), assistant r1]` from the empty graph. -/
def exGW : Graph := okOr (mergeConversationTurn "u" "t" exBatchUTR graphEmpty)

def exM0 : SMsg :=
  { id := some "m0", index := 0, role := "user", content := some "q",
    sources := Option.none }

def exTC1 : SMsg :=
  { id := some "tc1", index := 1, role := "tool", content := Option.none,
    sources := some [{ url := .str "https://x", title := .str "T", content := "doc" }] }

def exR1 : SMsg :=
  { id := some "r1", index := 2, role := "assistant", content := some "ans",
    sources := Option.none }

theorem c3_witness :
    (⟨EType.triggered, (NKind.message, "r1"), (NKind.toolCall, "tc1")⟩ : Edge) ∈
      exGW.edges := by
  have hrun : mergeConversationTurn "u" "t" ([exM0] ++ [exTC1, exR1]) graphEmpty =
      Except.ok exGW := by
    rfl
  exact (c3_tool_linkage (List.cons_ne_nil _ _) rfl rfl rfl rfl hrun).1

/-! ## C2 — re-running an identical batch adds no nodes

Every `MERGE` of the second run is keyed on data the first run already wrote:
the message/toolcall ids and source urls are pure functions of the batch, so
each node `MERGE` matches instead of creating.  `PairReady` captures exactly
what the first run guarantees for each pair. -/

/-- The merged message's id key resolves, its node (ToolCall for a tool turn,
Message otherwise) is already in the graph, and for a tool turn every source
entry's url key resolves to a Source node already in the graph. -/
def PairReady (g : Graph) (p : SMsg × SMsg) : Prop :=
  ∃ mid, idKey p.2.id = .ok mid ∧
    hasNode g ((if p.2.role == "tool" then NKind.toolCall else NKind.message), mid) = true ∧
    ((p.2.role == "tool") = true →
      ∀ s ∈ p.2.sources.getD [], ∃ u, mergeKey s.url = .ok u ∧
        hasNode g (NKind.source, u) = true)

theorem PairReady_of_sub {g g' : Graph} {p : SMsg × SMsg} (hs : GSub g g')
    (h : PairReady g p) : PairReady g' p := by
  obtain ⟨mid, hid, hn, hsrc⟩ := h
  refine ⟨mid, hid, hasNode_of_sub hs.1 hn, ?_⟩
  intro ht s hsm
  obtain ⟨u, hu, hnu⟩ := hsrc ht s hsm
  exact ⟨u, hu, hasNode_of_sub hs.1 hnu⟩

theorem PairReady_congr {g g' : Graph} {p : SMsg × SMsg} (he : g'.nodes = g.nodes)
    (h : PairReady g p) : PairReady g' p := by
  obtain ⟨mid, hid, hn, hsrc⟩ := h
  refine ⟨mid, hid, by rw [hasNode_congr_nodes he]; exact hn, ?_⟩
  intro ht s hsm
  obtain ⟨u, hu, hnu⟩ := hsrc ht s hsm
  exact ⟨u, hu, by rw [hasNode_congr_nodes he]; exact hnu⟩

theorem processPair_post_ready {tid : String} {g g' : Graph} {m0 m1 : SMsg}
    (h : processPair tid g m0 m1 = .ok g') : PairReady g' (m0, m1) := by
  unfold processPair at h
  by_cases hb : (m1.role == "tool") = true
  · rw [if_pos hb] at h
    cases hk : idKey m1.id with
    | error e => rw [hk] at h; cases h
    | ok mid =>
      rw [hk] at h
      refine ⟨mid, hk, ?_, ?_⟩
      · rw [if_pos hb]
        exact hasNode_of_sub (mergeSources_ok_sub _ _ _ _ h).1
          (hasNode_mergeNode_self g (msgNodeOf .toolCall mid m1))
      · intro _ s hsm
        obtain ⟨u, hu, hnu, _⟩ := mergeSources_post _ _ _ _ h s hsm
        exact ⟨u, hu, hnu⟩
  · rw [if_neg hb] at h
    cases hk : idKey m1.id with
    | error e => rw [hk] at h; cases h
    | ok mid =>
      rw [hk] at h
      cases h
      refine ⟨mid, hk, ?_, fun ht => absurd ht hb⟩
      rw [if_neg hb]
      rw [hasNode_congr_nodes (pairChainAppend_nodes _ _ _),
        hasNode_congr_nodes (pairToolLink_nodes _ _ _)]
      exact hasNode_mergeNode_self g (msgNodeOf .message mid m1)

theorem processPairs_all_ready {tid : String} : ∀ (ps : List (SMsg × SMsg)) (g g' : Graph),
    processPairs tid g ps = .ok g' → ∀ p ∈ ps, PairReady g' p := by
  intro ps
  induction ps with
  | nil => intro g g' _ p hp; cases hp
  | cons q rest ih =>
    intro g g' h p hp
    rw [processPairs] at h
    cases hq : processPair tid g q.1 q.2 with
    | error e => rw [hq] at h; cases h
    | ok g1 =>
      rw [hq] at h
      rcases List.mem_cons.mp hp with h1 | h1
      · subst h1
        exact PairReady_of_sub (processPairs_ok_sub _ _ _ h) (processPair_post_ready hq)
      · exact ih _ _ h p h1

theorem mergeSources_ready (o : Ref) : ∀ (l : List SrcEntry) (g : Graph),
    (∀ s ∈ l, ∃ u, mergeKey s.url = .ok u ∧ hasNode g (NKind.source, u) = true) →
    ∃ g', mergeSources o g l = .ok g' ∧ g'.nodes = g.nodes := by
  intro l
  induction l with
  | nil => intro g _; exact ⟨g, rfl, rfl⟩
  | cons s rest ih =>
    intro g hready
    obtain ⟨u, hu, hn⟩ := hready s (List.mem_cons_self s rest)
    have hmn : mergeNode g
        { kind := .source, key := u, title := some s.title,
          text := some s.content } = g :=
      mergeNode_of_hasNode hn
    have hen : (mergeEdge g (⟨.retrieved, o, (NKind.source, u)⟩ : Edge)).nodes = g.nodes :=
      mergeEdge_nodes g _
    obtain ⟨g', hok, hnodes⟩ := ih (mergeEdge g ⟨.retrieved, o, (NKind.source, u)⟩)
      (fun s2 hs2 => by
        obtain ⟨u2, hu2, hn2⟩ := hready s2 (List.mem_cons_of_mem s hs2)
        exact ⟨u2, hu2, by rw [hasNode_congr_nodes hen]; exact hn2⟩)
    refine ⟨g', ?_, hnodes.trans hen⟩
    rw [mergeSources, hu]
    show mergeSources o (mergeEdge (mergeNode g _) _) rest = Except.ok g'
    rw [hmn]
    exact hok

theorem processPair_ready {tid : String} {g : Graph} {p : SMsg × SMsg}
    (h : PairReady g p) :
    ∃ g', processPair tid g p.1 p.2 = .ok g' ∧ g'.nodes = g.nodes := by
  obtain ⟨mid, hid, hn, hsrc⟩ := h
  by_cases hb : (p.2.role == "tool") = true
  · rw [if_pos hb] at hn
    have hmn : mergeNode g (msgNodeOf .toolCall mid p.2) = g := mergeNode_of_hasNode hn
    obtain ⟨g', hok, hnodes⟩ := mergeSources_ready (NKind.toolCall, mid)
      (p.2.sources.getD []) g (hsrc hb)
    refine ⟨g', ?_, hnodes⟩
    unfold processPair
    rw [if_pos hb, hid]
    show mergeSources (NKind.toolCall, mid) (mergeNode g _) _ = Except.ok g'
    rw [hmn]
    exact hok
  · rw [if_neg hb] at hn
    have hmn : mergeNode g (msgNodeOf .message mid p.2) = g := mergeNode_of_hasNode hn
    refine ⟨pairChainAppend tid
      (pairToolLink (mergeNode g (msgNodeOf .message mid p.2)) (NKind.message, mid) p.1)
      (NKind.message, mid), ?_, ?_⟩
    · unfold processPair
      rw [if_neg hb, hid]
    · rw [pairChainAppend_nodes, pairToolLink_nodes, hmn]

theorem processPairs_ready {tid : String} : ∀ (ps : List (SMsg × SMsg)) (g : Graph),
    (∀ p ∈ ps, PairReady g p) →
    ∃ g', processPairs tid g ps = .ok g' ∧ g'.nodes = g.nodes := by
  intro ps
  induction ps with
  | nil => intro g _; exact ⟨g, rfl, rfl⟩
  | cons q rest ih =>
    intro g hready
    obtain ⟨g1, hok1, hn1⟩ := processPair_ready (hready q (List.mem_cons_self q rest))
    obtain ⟨g', hok, hn⟩ := ih g1
      (fun p hp => PairReady_congr hn1 (hready p (List.mem_cons_of_mem q hp)))
    refine ⟨g', ?_, hn.trans hn1⟩
    rw [processPairs, hok1]
    exact hok

theorem hasFirstOut_of_mem {g : Graph} {e : Edge} (he : e ∈ g.edges)
    (ht : e.typ = EType.first) {r : Ref} (hs : e.src = r) :
    hasFirstOut g r = true := by
  simp only [hasFirstOut, List.any_eq_true, Bool.and_eq_true, beq_iff_eq]
  exact ⟨e, he, ht, hs⟩

theorem processFirstBlock_first_out {tid : String} {msgs : List SMsg} {g g' : Graph}
    (h : processFirstBlock tid msgs g = .ok g') :
    hasFirstOut g' (NKind.thread, tid) = true := by
  unfold processFirstBlock at h
  split at h
  · next hfo => cases h; exact hfo
  · split at h
    · cases h
    · next m _ =>
      cases hk : idKey m.id with
      | error e => rw [hk] at h; cases h
      | ok mid =>
        rw [hk] at h
        cases h
        exact hasFirstOut_of_mem (mergeEdge_mem_self _ _) rfl rfl

theorem mergeNode_eq_of_hasNode (g : Graph) (n : Node)
    (h : hasNode g (n.kind, n.key) = true) : mergeNode g n = g :=
  mergeNode_of_hasNode h

theorem mergeUserThread_post (uid tid : String) (g : Graph) :
    hasNode (mergeUserThread uid tid g) (NKind.user, uid) = true ∧
    hasNode (mergeUserThread uid tid g) (NKind.thread, tid) = true ∧
    (⟨.participated, (NKind.user, uid), (NKind.thread, tid)⟩ : Edge) ∈
      (mergeUserThread uid tid g).edges := by
  unfold mergeUserThread
  refine ⟨?_, ?_, mergeEdge_mem_self _ _⟩
  · rw [hasNode_congr_nodes (mergeEdge_nodes _ _)]
    exact hasNode_of_sub (GSub_mergeNode _ _).1 (hasNode_mergeNode_self g _)
  · rw [hasNode_congr_nodes (mergeEdge_nodes _ _)]
    exact hasNode_mergeNode_self _ _

theorem mergeUserThread_of_present {uid tid : String} {g : Graph}
    (hU : hasNode g (NKind.user, uid) = true)
    (hT : hasNode g (NKind.thread, tid) = true)
    (hE : (⟨.participated, (NKind.user, uid), (NKind.thread, tid)⟩ : Edge) ∈ g.edges) :
    mergeUserThread uid tid g = g := by
  unfold mergeUserThread
  rw [mergeNode_eq_of_hasNode g { kind := .user, key := uid } hU,
    mergeNode_eq_of_hasNode g { kind := .thread, key := tid } hT,
    mergeEdge_of_mem hE]

/-- C2 (amended): re-running `MERGE_CONVERSATION_TURN` with an identical batch
on the graph the first run committed succeeds and leaves the node list
unchanged — every node `MERGE` is keyed on the stable ids/urls of the batch,
which the first run already wrote, so the second run matches every node
instead of creating one and no uniqueness constraint can be violated.  It is
not edge-idempotent: the chain append can add a further `NEXT` edge, as the
counterexample shows. -/
theorem c2_rerun_preserves_nodes {uid tid : String} {msgs : List SMsg} {g g1 : Graph}
    (h : mergeConversationTurn uid tid msgs g = .ok g1) :
    ∃ g2, mergeConversationTurn uid tid msgs g1 = .ok g2 ∧ g2.nodes = g1.nodes := by
  obtain ⟨gF, hF, hP⟩ := mergeConversationTurn_parts h
  have hsubF : GSub (mergeUserThread uid tid g) gF := processFirstBlock_ok_sub hF
  have hsubP : GSub gF g1 := processPairs_ok_sub _ _ _ hP
  obtain ⟨hU0, hT0, hE0⟩ := mergeUserThread_post uid tid g
  have hU : hasNode g1 (NKind.user, uid) = true :=
    hasNode_of_sub hsubP.1 (hasNode_of_sub hsubF.1 hU0)
  have hT : hasNode g1 (NKind.thread, tid) = true :=
    hasNode_of_sub hsubP.1 (hasNode_of_sub hsubF.1 hT0)
  have hE : (⟨.participated, (NKind.user, uid), (NKind.thread, tid)⟩ : Edge) ∈ g1.edges :=
    hsubP.2 (hsubF.2 hE0)
  have hFO : hasFirstOut g1 (NKind.thread, tid) = true :=
    hasFirstOut_of_sub hsubP.2 (processFirstBlock_first_out hF)
  have hUT : mergeUserThread uid tid g1 = g1 := mergeUserThread_of_present hU hT hE
  have hF2 : processFirstBlock tid msgs g1 = .ok g1 := by
    unfold processFirstBlock
    rw [if_pos hFO]
  obtain ⟨g2, hok2, hn2⟩ := processPairs_ready (pairsOf msgs) g1
    (processPairs_all_ready _ _ _ hP)
  refine ⟨g2, ?_, hn2⟩
  unfold mergeConversationTurn
  rw [hUT, hF2]
  exact hok2

theorem c2_witness :
    ∃ g2, mergeConversationTurn "u" "t" exBatchTwo
        (okOr (mergeConversationTurn "u" "t" exBatchTwo graphEmpty)) = Except.ok g2 ∧
      g2.nodes = (okOr (mergeConversationTurn "u" "t" exBatchTwo graphEmpty)).nodes :=
  c2_rerun_preserves_nodes
    (show mergeConversationTurn "u" "t" exBatchTwo graphEmpty =
      Except.ok (okOr (mergeConversationTurn "u" "t" exBatchTwo graphEmpty)) from rfl)

theorem c1_witness :
    (fun fails => (save_chat_history jparseNone "u" "t" exRawBatch [] fails
        graphEmpty).raised = false ∧
      (save_chat_history jparseNone "u" "t" exRawBatch [] fails
        graphEmpty).retval = PyVal.none ∧
      (save_chat_history jparseNone "u" "t" exRawBatch [] fails
        graphEmpty).graph = graphEmpty ∧
      (save_chat_history jparseNone "u" "t" exRawBatch [] fails
        graphEmpty).errorLog ≠ []) (fun _ => true) :=
  c1_save_failure_contained jparseNone "u" "t" exRawBatch [] (fun _ => true)
    graphEmpty rfl
